import Mathlib

/-!
Verification development for the turbo-tosec ingestion pipeline
(src/turbo_tosec/{parser,session,database,cli}.py).

The Python source is shallowly embedded:

* file text is a `List Char` (reading with `errors='ignore'/'replace'`
  is modelled by taking the decoded character sequence as given, and an
  unreadable file by `Option.none`);
* the concrete regular expressions of parser.py (`GAME_PATTERN`,
  `NAME_PAT`, `SIZE_PAT`, `CRC_PAT`, `ROM_PAT`, ...) are embedded as
  executable scanners with exactly the leftmost-match / lazy-group
  semantics of Python `re` for those patterns;
* an XML document, as traversed through `xml.etree.ElementTree`, is a
  list of elements (tag, `name` attribute, optional `description` child,
  `rom` children with their attributes); `ElementTree` itself is the
  external collaborator, so well-formed parsed structure is the model
  boundary;
* Python's dynamically-typed record tuples become the `Row` structure;
  the `size` slot, which holds a raw string in `InMemoryParser._parse_xml`
  and an `int` elsewhere, becomes the sum type `SizeVal`;
* DuckDB is the external destination engine: `insert_batch` is modelled
  as appending the batch to the `roms` list and then marking the batch's
  filenames processed, in that order, exactly as database.py does.
  (database.py's `roms` DDL and `executemany` placeholder list still
  have the pre-v2.0 11 columns while every parser emits 14-column rows;
  the model abstracts the insert as appending the whole row batch, which
  is the part the checkpoint claims depend on.)

Character-level operations (`str.lower`, `str.strip`, `\s`, `str.isdigit`)
are modelled on ASCII, which covers every pattern the source matches on.
-/

set_option maxRecDepth 8000

/-! ### Python character / string primitives -/

/-- Python `\s` (ASCII range): space, tab, newline, carriage return,
vertical tab, form feed. -/
def pyWs (c : Char) : Bool :=
  c = ' ' || c = '\t' || c = '\n' || c = '\r' || c = Char.ofNat 11 || c = Char.ofNat 12

/-- ASCII `str.lower` on one character. -/
def pyLowerChar (c : Char) : Char :=
  match c with
  | 'A' => 'a' | 'B' => 'b' | 'C' => 'c' | 'D' => 'd' | 'E' => 'e' | 'F' => 'f'
  | 'G' => 'g' | 'H' => 'h' | 'I' => 'i' | 'J' => 'j' | 'K' => 'k' | 'L' => 'l'
  | 'M' => 'm' | 'N' => 'n' | 'O' => 'o' | 'P' => 'p' | 'Q' => 'q' | 'R' => 'r'
  | 'S' => 's' | 'T' => 't' | 'U' => 'u' | 'V' => 'v' | 'W' => 'w' | 'X' => 'x'
  | 'Y' => 'y' | 'Z' => 'z'
  | other => other

/-- ASCII `str.lower` on a character list. -/
def pyLower (l : List Char) : List Char := l.map pyLowerChar

/-- Python `str.strip()` (ASCII whitespace). -/
def pyStripL (l : List Char) : List Char :=
  ((l.dropWhile pyWs).reverse.dropWhile pyWs).reverse

/-- Literal (case-sensitive) `str.startswith` on character lists. -/
def startsWithL : List Char → List Char → Bool
  | [], _ => true
  | _ :: _, [] => false
  | n :: ns, h :: hs => n = h && startsWithL ns hs

/-- Case-insensitive prefix test (the needle is given lowercase). -/
def startsWithLCi : List Char → List Char → Bool
  | [], _ => true
  | _ :: _, [] => false
  | n :: ns, h :: hs => n = pyLowerChar h && startsWithLCi ns hs

/-- Python substring containment `needle in hay`. -/
def containsSub (needle : List Char) : List Char → Bool
  | [] => startsWithL needle []
  | h :: hs => startsWithL needle (h :: hs) || containsSub needle hs

/-- Python `str.endswith` on character lists. -/
def endsWithL (needle l : List Char) : Bool :=
  startsWithL needle.reverse l.reverse

/-- Numeric value of a decimal digit run (`int` on a `\d+` capture). -/
def natOfDigits (ds : List Char) : Nat :=
  ds.foldl (fun a c => a * 10 + (c.toNat - '0'.toNat)) 0

/-- Hexadecimal digit value (class `[0-9a-fA-F]`). -/
def hexDigitVal (c : Char) : Option Nat :=
  if '0' ≤ c ∧ c ≤ '9' then some (c.toNat - '0'.toNat)
  else if 'a' ≤ c ∧ c ≤ 'f' then some (c.toNat - 'a'.toNat + 10)
  else if 'A' ≤ c ∧ c ≤ 'F' then some (c.toNat - 'A'.toNat + 10)
  else none

/-- Hexadecimal digit test. -/
def isHexChar (c : Char) : Bool := (hexDigitVal c).isSome

/-! ### Python `int(s, 16)` -/

/-- Digit sequence of `int(_, 16)` after the first digit: hex digits with
single underscores allowed between digits. -/
def parseHexDigitsAux : List Char → Nat → Option Nat
  | [], acc => some acc
  | '_' :: c :: rest, acc =>
    match hexDigitVal c with
    | some d => parseHexDigitsAux rest (acc * 16 + d)
    | none => none
  | ['_'], _ => none
  | c :: rest, acc =>
    match hexDigitVal c with
    | some d => parseHexDigitsAux rest (acc * 16 + d)
    | none => none

/-- Body of `int(_, 16)`: a non-empty underscore-grouped hex digit run. -/
def parseHexBody : List Char → Option Nat
  | [] => none
  | c :: rest =>
    match hexDigitVal c with
    | some d => parseHexDigitsAux rest d
    | none => none

/-- Magnitude part of `int(_, 16)`: optional `0x`/`0X` indicator (with one
underscore allowed right after it), then the digit run. -/
def pyHexMag (cs : List Char) : Option Nat :=
  match cs with
  | '0' :: x :: rest =>
    if x = 'x' ∨ x = 'X' then
      match rest with
      | '_' :: r2 => parseHexBody r2
      | r2 => parseHexBody r2
    else parseHexBody ('0' :: x :: rest)
  | r => parseHexBody r

/-- Python `int(s, 16)`: strip, optional sign, magnitude. `none` models
`ValueError`. -/
def pyIntBase16 (cs0 : List Char) : Option Int :=
  match pyStripL cs0 with
  | '+' :: r => (pyHexMag r).map (fun n => (n : Int))
  | '-' :: r => (pyHexMag r).map (fun n => -(n : Int))
  | r => (pyHexMag r).map (fun n => (n : Int))

/-! ### `_try_parse_size` (parser.py lines 78-124) -/

/-- Leftmost maximal decimal digit run, the capture of `re.search(r"(\d+)", s)`. -/
def firstDigitRun : List Char → Option (List Char)
  | [] => none
  | c :: rest =>
    if c.isDigit then some (c :: rest.takeWhile Char.isDigit)
    else firstDigitRun rest

/-- `_try_parse_size`: the size-token normalizer.  `none` input models the
attribute being absent (`rom.get('size')` returning `None`); a raised
`ValueError` becomes `Except.error` with the source's message text. -/
def tryParseSize : Option String → Except String Int
  | none => .ok 0
  | some raw =>
    if raw = "" then .ok 0
    else
      let s := pyLower (pyStripL raw.toList)
      if startsWithL ['0', 'x'] s || startsWithL ['$'] s then
        match pyIntBase16 (s.filter (· ≠ '$')) with
        | some n => .ok n
        | none => .error ("Invalid Hex format: " ++ raw)
      else
        let multiplier : Int :=
          if containsSub ['k', 'b'] s || containsSub ['k', ' '] s || endsWithL ['k'] s then
            1024
          else if containsSub ['m', 'b'] s || containsSub ['m', ' '] s || endsWithL ['m'] s then
            1024 * 1024
          else if containsSub ['g', 'b'] s || containsSub ['g', ' '] s || endsWithL ['g'] s then
            1024 * 1024 * 1024
          else 1
        match firstDigitRun s with
        | some ds => .ok ((natOfDigits ds : Int) * multiplier)
        | none => .error ("Unknown/Unparsable size format: " ++ raw)

/-- `Except.isOk` is not in scope for this Lean; a tiny helper. -/
def isErr {ε α : Type} : Except ε α → Bool
  | .error _ => true
  | .ok _ => false

deriving instance DecidableEq for Except

/-! ### `_detect_file_format` (parser.py lines 27-54) -/

inductive FileFormat where
  | xml
  | cmp
  | unknown
deriving DecidableEq, Repr

/-- `_detect_file_format`.  The argument is the result of
`open(...).read(1024)` with `errors='ignore'`: `none` when opening or
reading raises, otherwise the decoded character stream of the file (the
`read(1024)` is the `take 1024`). -/
def detectFileFormat (readResult : Option (List Char)) : FileFormat :=
  match readResult with
  | none => .unknown
  | some cs =>
    let head := pyStripL (pyLower (cs.take 1024))
    if containsSub "<?xml".toList head || containsSub "<datafile".toList head ||
        containsSub "<mame".toList head then
      .xml
    else if containsSub "clrmamepro".toList head || containsSub "rom (".toList head ||
        containsSub "game (".toList head then
      .cmp
    else .unknown

/-! ### `parse_game_info` (parser.py lines 56-76) -/

/-- Does `\s*\(` match at this position (maximal whitespace run followed
by an opening parenthesis)? -/
def wsThenParen (cs : List Char) : Bool :=
  match cs.dropWhile pyWs with
  | '(' :: _ => true
  | _ => false

/-- Does `$` match at this position (end of string, or just before a
final newline)? -/
def dollarHere (cs : List Char) : Bool :=
  cs = [] || cs = ['\n']

/-- Group 1 of `re.match(r'^(.*?)(\s*\(|$)', s)`: the shortest prefix
after which `\s*\(` or `$` matches, where the prefix itself may not
contain a newline (`.` without DOTALL).  `none` models a failed match. -/
def titleScan : List Char → Option (List Char)
  | [] => some []
  | c :: rest =>
    if wsThenParen (c :: rest) ∨ dollarHere (c :: rest) then some []
    else if c = '\n' then none
    else (titleScan rest).map (c :: ·)

/-- Capture of `re.search(r'\((\d{4})\)', s)`: the first `(dddd)` group. -/
def yearSearch : List Char → Option Int
  | [] => none
  | c :: rest =>
    if c = '(' then
      match rest with
      | a :: b :: c2 :: d :: ')' :: _ =>
        if a.isDigit ∧ b.isDigit ∧ c2.isDigit ∧ d.isDigit then
          some ((natOfDigits [a, b, c2, d] : Int))
        else yearSearch rest
      | _ => yearSearch rest
    else yearSearch rest

/-- `parse_game_info`: title / release-year extraction from a game name.
The input is the raw `name` attribute (`None` ↦ `none`). -/
def parseGameInfo (gameName : Option String) : String × Option Int :=
  match gameName with
  | none => ("Unknown", none)
  | some s =>
    if s = "" then ("Unknown", none)
    else
      let cs := s.toList
      let title :=
        match titleScan cs with
        | some g => String.mk (pyStripL g)
        | none => String.mk (pyStripL cs)
      (title, yearSearch cs)

/-! ### Path helpers (`os.path.basename` / `os.path.dirname`, POSIX) -/

/-- Characters after the last slash. -/
def afterLastSlash (l : List Char) : List Char :=
  (l.reverse.takeWhile (· ≠ '/')).reverse

/-- `os.path.basename`. -/
def pyBasename (p : String) : String :=
  String.mk (afterLastSlash p.toList)

/-- `os.path.dirname`. -/
def pyDirname (l : List Char) : List Char :=
  if l.contains '/' then
    let head := (l.reverse.dropWhile (· ≠ '/')).reverse
    if head.all (· = '/') then head else (head.reverse.dropWhile (· = '/')).reverse
  else []

/-! ### `_get_common_info` (parser.py lines 139-159) -/

structure CommonInfo where
  datFilename : String
  platform : String
  category : String
  system : String
deriving DecidableEq, Repr

/-- `name.rsplit('.', 1)[0]`. -/
def stripExt (l : List Char) : List Char :=
  if l.contains '.' then ((l.reverse.dropWhile (· ≠ '.')).reverse).dropLast
  else l

/-- Prefix before the first occurrence of `needle` (whole list if none). -/
def beforeSub (needle : List Char) : List Char → List Char
  | [] => []
  | c :: rest =>
    if startsWithL needle (c :: rest) then []
    else c :: beforeSub needle rest

/-- `s.split(sep, 1)`: split on the first occurrence. -/
def splitOnceAux (sep : List Char) : List Char → Option (List Char × List Char)
  | [] => none
  | c :: rest =>
    if startsWithL sep (c :: rest) then some ([], (c :: rest).drop sep.length)
    else (splitOnceAux sep rest).map (fun p => (c :: p.1, p.2))

/-- `_get_common_info`: filename, platform, category, system derived from
the file path.  (`TurboParser._parse_xml` and the module-level
`parse_and_save_chunks` inline the identical computation.) -/
def getCommonInfo (filePath : String) : CommonInfo :=
  let p := filePath.toList
  let datFilename := afterLastSlash p
  let systemName := afterLastSlash (pyDirname p)
  let cleanName0 := stripExt datFilename
  let cleanName :=
    if containsSub "(TOSEC".toList cleanName0 then
      pyStripL (beforeSub "(TOSEC".toList cleanName0)
    else cleanName0
  match splitOnceAux " - ".toList cleanName with
  | some (a, b) =>
    ⟨String.mk datFilename, String.mk (pyStripL a), String.mk (pyStripL b),
      String.mk systemName⟩
  | none =>
    ⟨String.mk datFilename, String.mk (pyStripL cleanName), "Standard",
      String.mk systemName⟩

/-! ### The record model -/

/-- The `size` slot of a record tuple.  `InMemoryParser._parse_xml` stores
the raw `rom.get('size')` string (line 291); every other extraction path
stores an `int`. -/
inductive SizeVal where
  | raw (s : Option String)
  | num (n : Int)
deriving DecidableEq, Repr

/-- One 14-column record tuple, in source order. -/
structure Row where
  filename : String
  platform : String
  category : String
  game_name : Option String
  title : String
  release_year : Option Int
  description : Option String
  rom_name : Option String
  size : SizeVal
  crc : Option String
  md5 : Option String
  sha1 : Option String
  status : String
  system : String
deriving DecidableEq, Repr

/-! ### XML document model (the `ElementTree` boundary) -/

/-- A `rom` element's attributes (`rom.get(...)`; `none` = attribute absent). -/
structure RomElem where
  name : Option String
  size : Option String
  crc : Option String
  md5 : Option String
  sha1 : Option String
  status : Option String
deriving DecidableEq, Repr

/-- A `game`/`machine`-level element as traversed by both XML parsers:
tag, `name` attribute, optional `description` child (whose text may be
`None`), and `rom` children in document order. -/
structure GameElem where
  tag : String
  name : Option String
  desc : Option (Option String)
  roms : List RomElem
deriving DecidableEq, Repr

/-- `desc_node.text if desc_node is not None else ""`. -/
def descText : Option (Option String) → Option String
  | none => some ""
  | some t => t

/-- Shared row construction for the XML paths (the two parsers differ only
in the `size` slot). -/
def mkXmlRow (ci : CommonInfo) (g : GameElem) (r : RomElem) (sz : SizeVal) : Row :=
  let ty := parseGameInfo g.name
  { filename := ci.datFilename, platform := ci.platform, category := ci.category,
    game_name := g.name, title := ty.1, release_year := ty.2,
    description := descText g.desc, rom_name := r.name,
    size := sz, crc := r.crc, md5 := r.md5, sha1 := r.sha1,
    status := r.status.getD "good", system := ci.system }

/-- `InMemoryParser._parse_xml`: `root.findall('game')` (only direct
children tagged `game`; `machine` elements are not visited), raw size. -/
def InMemoryParser.parseXml (ci : CommonInfo) (doc : List GameElem) : List Row :=
  (doc.filter (fun g => g.tag == "game")).flatMap
    (fun g => g.roms.map (fun r => mkXmlRow ci g r (.raw r.size)))

/-- Rom loop of `TurboParser._parse_xml`: yield rows until the first
unparsable size raises (`_try_parse_size`), keeping the prefix. -/
def turboRomLoop (ci : CommonInfo) (g : GameElem) : List RomElem → List Row × Option String
  | [] => ([], none)
  | r :: rest =>
    match tryParseSize r.size with
    | .error e => ([], some e)
    | .ok n =>
      let p := turboRomLoop ci g rest
      (mkXmlRow ci g r (.num n) :: p.1, p.2)

/-- `TurboParser._parse_xml` over `iterparse`: every element tagged
`game` or `machine`, in document order; the generator's already-yielded
prefix is kept when `_try_parse_size` raises. -/
def turboXmlLoop (ci : CommonInfo) : List GameElem → List Row × Option String
  | [] => ([], none)
  | g :: rest =>
    if g.tag == "game" || g.tag == "machine" then
      match turboRomLoop ci g g.roms with
      | (rows, some e) => (rows, some e)
      | (rows, none) =>
        let p := turboXmlLoop ci rest
        (rows ++ p.1, p.2)
    else turboXmlLoop ci rest

def TurboParser.parseXml (ci : CommonInfo) (doc : List GameElem) : List Row × Option String :=
  turboXmlLoop ci doc

/-! ### CMP regex machinery (parser.py module-level patterns)

Each compiled pattern of parser.py becomes an executable scanner with the
leftmost-match and lazy-group semantics of Python `re` for that concrete
pattern. -/

/-- Length of a `\s*\(` match at this position (maximal whitespace run
followed by `'('`), if any. -/
def wsParenLen (cs : List Char) : Option Nat :=
  if (cs.drop (cs.takeWhile pyWs).length).head? = some '(' then
    some ((cs.takeWhile pyWs).length + 1)
  else none

/-- Length of a `kw\s*\(` match (case-insensitive keyword) at this
position, if any (`GAME_PATTERN`, and the opening of `ROM_PAT`). -/
def kwOpenLen (kw : List Char) (cs : List Char) : Option Nat :=
  if startsWithLCi kw cs then (wsParenLen (cs.drop kw.length)).map (· + kw.length)
  else none

def gameOpenLen : List Char → Option Nat := kwOpenLen "game".toList

def romOpenLen : List Char → Option Nat := kwOpenLen "rom".toList

/-- Fuel-indexed scan for `GAME_PATTERN.finditer`; each step consumes at
least one character, so `fuel = length` is always enough (the fuel only
serves to keep the recursion structural, hence kernel-computable). -/
def gameOpensF : Nat → List Char → List (List Char)
  | 0, _ => []
  | _, [] => []
  | fuel + 1, c :: rest =>
    match gameOpenLen (c :: rest) with
    | some L => (c :: rest).drop L :: gameOpensF fuel ((c :: rest).drop L)
    | none => gameOpensF fuel rest

/-- `GAME_PATTERN.finditer(content)`: the suffix of the text after each
(non-overlapping) `game\s*\(` match, in order — i.e. the scan resumes at
each `match.end()`. -/
def gameOpens (cs : List Char) : List (List Char) :=
  gameOpensF cs.length cs

/-- The bracket-counting block scanner of `InMemoryParser._parse_cmp`
(lines 318-330): scan from just after the opening `(` with the given
balance; return the consumed text up to (excluding) the parenthesis that
returns the balance to zero, or `none` when the text ends first. -/
def bracketScan : List Char → Nat → Option (List Char)
  | _, 0 => some []
  | [], _ + 1 => none
  | c :: rest, b + 1 =>
    if c = '(' then (bracketScan rest (b + 2)).map (c :: ·)
    else if c = ')' then
      match b with
      | 0 => some []
      | b2 + 1 => (bracketScan rest (b2 + 1)).map (c :: ·)
    else (bracketScan rest (b + 1)).map (c :: ·)

/-- One-position match of `kw\s+"(.*?)"` (`NAME_PAT`, `DESC_PAT`,
`ROM_NAME_PAT`): keyword (case-insensitive), at least one whitespace
character, `"`, then a lazy capture that cannot cross `"` or a newline,
closed by `"`. -/
def matchKwQuoted (kw : List Char) (cs : List Char) : Option (List Char) :=
  if startsWithLCi kw cs then
    let r := cs.drop kw.length
    let w := (r.takeWhile pyWs).length
    if w = 0 then none
    else if (r.drop w).head? = some '"' then
      let r2 := (r.drop w).tail
      let g := r2.takeWhile (fun c => !(c = '"' || c = '\n'))
      if (r2.drop g.length).head? = some '"' then some g else none
    else none
  else none

/-- `re.search` for `kw\s+"(.*?)"`: leftmost match's capture. -/
def searchKwQuoted (kw : List Char) : List Char → Option (List Char)
  | [] => none
  | c :: rest =>
    match matchKwQuoted kw (c :: rest) with
    | some g => some g
    | none => searchKwQuoted kw rest

/-- One-position match of `kw\s+(C+)` for a character class `C`
(`SIZE_PAT` with digits, `CRC_PAT`/`MD5_PAT`/`SHA1_PAT` with hex):
keyword, at least one whitespace, then a maximal non-empty run. -/
def matchKwRun (kw : List Char) (good : Char → Bool) (cs : List Char) : Option (List Char) :=
  if startsWithLCi kw cs then
    let r := cs.drop kw.length
    let w := (r.takeWhile pyWs).length
    if w = 0 then none
    else
      let g := (r.drop w).takeWhile good
      if g.isEmpty then none else some g
  else none

/-- `re.search` for `kw\s+(C+)`: leftmost match's capture. -/
def searchKwRun (kw : List Char) (good : Char → Bool) : List Char → Option (List Char)
  | [] => none
  | c :: rest =>
    match matchKwRun kw good (c :: rest) with
    | some g => some g
    | none => searchKwRun kw good rest

/-- Split at the first `')'`: `some (before, after)` or `none`. -/
def splitAtParenClose (l : List Char) : Option (List Char × List Char) :=
  match l.dropWhile (· ≠ ')') with
  | _ :: a => some (l.takeWhile (· ≠ ')'), a)
  | [] => none

/-- Fuel-indexed scan for `ROM_PAT.finditer` (`rom\s*\(\s*(.*?)\s*\)`
with DOTALL): at each leftmost `rom\s*\(`, the capture is the text up to
the first `')'` stripped of surrounding whitespace (the greedy `\s*` on
both sides of the lazy group), and scanning resumes after that `')'`;
when no `')'` follows, no further match exists anywhere.  Each step
consumes at least one character, so `fuel = length` is always enough. -/
def romFindAllF : Nat → List Char → List (List Char)
  | 0, _ => []
  | _, [] => []
  | fuel + 1, c :: rest =>
    match romOpenLen (c :: rest) with
    | some L =>
      match splitAtParenClose ((c :: rest).drop L) with
      | some p => pyStripL p.1 :: romFindAllF fuel p.2
      | none => []
    | none => romFindAllF fuel rest

def romFindAll (cs : List Char) : List (List Char) :=
  romFindAllF cs.length cs

/-! ### `InMemoryParser._parse_cmp` (parser.py lines 301-360) -/

/-- Row extraction from one game block (lines 332-359). -/
def cmpBlockRows (ci : CommonInfo) (block : List Char) : List Row :=
  let gname :=
    match searchKwQuoted "name".toList block with
    | some g => String.mk g
    | none => "Unknown"
  let gdesc :=
    match searchKwQuoted "description".toList block with
    | some g => String.mk g
    | none => ""
  let ty := parseGameInfo (some gname)
  (romFindAll block).filterMap fun rd =>
    match searchKwQuoted "name".toList rd with
    | none => none
    | some rn =>
      some { filename := ci.datFilename, platform := ci.platform, category := ci.category,
             game_name := some gname, title := ty.1, release_year := ty.2,
             description := some gdesc,
             rom_name := some (String.mk rn),
             size := .num (match searchKwRun "size".toList Char.isDigit rd with
                           | some dsz => (natOfDigits dsz : Int)
                           | none => 0),
             crc := some (match searchKwRun "crc".toList isHexChar rd with
                          | some g => String.mk g
                          | none => ""),
             md5 := some (match searchKwRun "md5".toList isHexChar rd with
                          | some g => String.mk g
                          | none => ""),
             sha1 := some (match searchKwRun "sha1".toList isHexChar rd with
                           | some g => String.mk g
                           | none => ""),
             status := "good", system := ci.system }

/-- `InMemoryParser._parse_cmp`: bracket-counted game blocks, then
per-block row extraction. -/
def InMemoryParser.parseCmp (ci : CommonInfo) (content : List Char) : List Row :=
  ((gameOpens content).filterMap (fun suf => bracketScan suf 1)).flatMap (cmpBlockRows ci)

/-! ### `TurboParser._parse_cmp` (parser.py lines 438-511) -/

/-- `line.split('"')[1]` for a line known to contain a quote. -/
def splitQuote1 (l : List Char) : List Char :=
  match l.dropWhile (· ≠ '"') with
  | _ :: r2 => r2.takeWhile (· ≠ '"')
  | [] => []

/-- Row yielded for one `rom (` line of the streaming CMP parser. -/
def mkTurboCmpRow (ci : CommonInfo) (nm ds : String) (l : List Char) (rn : List Char) : Row :=
  let ty := parseGameInfo (some nm)
  { filename := ci.datFilename, platform := ci.platform, category := ci.category,
    game_name := some nm, title := ty.1, release_year := ty.2, description := some ds,
    rom_name := some (String.mk rn),
    size := .num (match searchKwRun "size".toList Char.isDigit l with
                  | some dsz => (natOfDigits dsz : Int)
                  | none => 0),
    crc := some (match searchKwRun "crc".toList isHexChar l with
                 | some g => String.mk g
                 | none => ""),
    md5 := some (match searchKwRun "md5".toList isHexChar l with
                 | some g => String.mk g
                 | none => ""),
    sha1 := some (match searchKwRun "sha1".toList isHexChar l with
                  | some g => String.mk g
                  | none => ""),
    status := "good", system := ci.system }

/-- The line loop of `TurboParser._parse_cmp`: state is the in-block flag
and the current game's name/description. -/
def turboCmpAux (ci : CommonInfo) : List (List Char) → Bool → String → String → List Row
  | [], _, _, _ => []
  | line :: rest, inB, nm, ds =>
    let l := pyStripL line
    if l = [] then turboCmpAux ci rest inB nm ds
    else if startsWithL "game (".toList l || startsWithL "resource (".toList l then
      turboCmpAux ci rest true "Unknown" ""
    else if l = [')'] then turboCmpAux ci rest false nm ds
    else if inB then
      if startsWithL "name \"".toList l then
        turboCmpAux ci rest true (String.mk (splitQuote1 l)) ds
      else if startsWithL "description \"".toList l then
        turboCmpAux ci rest true nm (String.mk (splitQuote1 l))
      else if startsWithL "rom (".toList l then
        match searchKwQuoted "name".toList l with
        | none => turboCmpAux ci rest inB nm ds
        | some rn => mkTurboCmpRow ci nm ds l rn :: turboCmpAux ci rest inB nm ds
      else turboCmpAux ci rest inB nm ds
    else turboCmpAux ci rest inB nm ds

/-- File-text to lines (`for line in f`, modulo the `strip()` the loop
applies anyway). -/
def splitLinesAux : List Char → List Char → List (List Char)
  | [], acc => [acc.reverse]
  | '\n' :: rest, acc => acc.reverse :: splitLinesAux rest []
  | c :: rest, acc => splitLinesAux rest (c :: acc)

def splitLines (cs : List Char) : List (List Char) := splitLinesAux cs []

/-- `TurboParser._parse_cmp`.  (The initial name/description values are
never read: `rom (` lines are only processed once a block start has set
them.) -/
def TurboParser.parseCmp (ci : CommonInfo) (content : List Char) : List Row :=
  turboCmpAux ci (splitLines content) false "Unknown" ""

/-! ### Parser entry points and the strategy pipelines -/

/-- An input file at the parse boundary: the detected format together
with the content the corresponding branch consumes (both parsers run
`_detect_file_format` on the same file, so they take the same branch;
`ElementTree`'s parsed structure stands in for XML text). -/
inductive FileContent where
  | xml (doc : List GameElem)
  | cmp (text : List Char)
  | unknown
deriving DecidableEq, Repr

/-- `InMemoryParser.parse`: `None` (Python) on unknown format. -/
def InMemoryParser.parse (ci : CommonInfo) : FileContent → Option (List Row)
  | .cmp text => some (InMemoryParser.parseCmp ci text)
  | .xml doc => some (InMemoryParser.parseXml ci doc)
  | .unknown => none

/-- `TurboParser.parse`: a generator, modelled as the yielded prefix plus
an optional raised error. -/
def TurboParser.parse (ci : CommonInfo) : FileContent → List Row × Option String
  | .xml doc => TurboParser.parseXml ci doc
  | .cmp text => (TurboParser.parseCmp ci text, none)
  | .unknown => ([], none)

/-- The buffer/flush loop shared by `parse_and_save_chunks` and
`parse_to_arrow_stream`: append, emit when the buffer reaches
`chunkSize`, emit the final partial buffer (writes skip empty data). -/
def chunkFlushLoop (chunkSize : Nat) : List Row → List Row → List (List Row)
  | buf, [] => if buf.isEmpty then [] else [buf]
  | buf, r :: rest =>
    let buf2 := buf ++ [r]
    if chunkSize ≤ buf2.length then buf2 :: chunkFlushLoop chunkSize [] rest
    else chunkFlushLoop chunkSize buf2 rest

/-- The same loop when the record source raises after yielding a prefix:
full chunks already emitted survive, the final partial buffer is lost
(the exception propagates before the trailing write). -/
def chunkNoFinalLoop (chunkSize : Nat) : List Row → List Row → List (List Row)
  | _, [] => []
  | buf, r :: rest =>
    let buf2 := buf ++ [r]
    if chunkSize ≤ buf2.length then buf2 :: chunkNoFinalLoop chunkSize [] rest
    else chunkNoFinalLoop chunkSize buf2 rest

/-- Result of `TurboParser.parse_and_save_chunks`: the chunk files
written to the staging directory, the `roms` stat, and the raised error
if any (only the `roms` entry of the returned stats dict is modelled). -/
structure StagedOut where
  chunks : List (List Row)
  roms : Nat
  err : Option String
deriving DecidableEq, Repr

/-- `TurboParser.parse_and_save_chunks` (Staged strategy worker body;
the session calls it with the default `chunk_size = 500000`). -/
def TurboParser.parseAndSaveChunks (ci : CommonInfo) (chunkSize : Nat) (f : FileContent) :
    StagedOut :=
  match TurboParser.parse ci f with
  | (rows, none) => ⟨chunkFlushLoop chunkSize [] rows, rows.length, none⟩
  | (rows, some e) => ⟨chunkNoFinalLoop chunkSize [] rows, rows.length, some e⟩

/-- `TurboParser.parse_to_arrow_stream` (Direct strategy; the session
calls it with `chunk_size = 50000`): the Arrow tables yielded, plus the
raised error if any. -/
def TurboParser.parseToArrowStream (ci : CommonInfo) (chunkSize : Nat) (f : FileContent) :
    List (List Row) × Option String :=
  match TurboParser.parse ci f with
  | (rows, none) => (chunkFlushLoop chunkSize [] rows, none)
  | (rows, some e) => (chunkNoFinalLoop chunkSize [] rows, some e)

/-! ### Session state (session.py `ImportSession` + database.py) -/

/-- Coordinator-side mutable state: the accumulation buffer, the
destination `roms` table, the `processed_files` table (membership is what
matters; `INSERT OR IGNORE` gives set semantics), the error tally, and
the running record total. -/
structure SessState where
  buffer : List Row
  roms : List Row
  processed : List String
  errors : Nat
  totalRoms : Nat
deriving DecidableEq, Repr

/-- `DatabaseManager.insert_batch` (database.py lines 123-133): insert
every row of the batch into `roms`, then mark each filename occurring in
the batch as processed.  Empty batches return immediately. -/
def insertBatch (st : SessState) (batch : List Row) : SessState :=
  if batch.isEmpty then st
  else
    { st with
      roms := st.roms ++ batch
      processed := st.processed ++ batch.map Row.filename }

/-- `ImportSession._flush_buffer` (session.py lines 294-298). -/
def flushBuffer (st : SessState) : SessState :=
  if st.buffer.isEmpty then st
  else
    let st2 := insertBatch st st.buffer
    { st2 with totalRoms := st2.totalRoms + st.buffer.length, buffer := [] }

/-- The fatal-condition test of `ImportSession._handle_error` (session.py
lines 354-358): the lowered error message contains a disk-exhaustion or
read-only-filesystem indication. -/
def fatalMsg (msg : String) : Bool :=
  containsSub "not enough space".toList (pyLower msg.toList) ||
  containsSub "read-only file system".toList (pyLower msg.toList)

/-- `ImportSession._handle_error`: re-raise a single fatal `OSError` for
disk exhaustion / read-only filesystem (before touching the tally),
otherwise count the error and return normally. -/
def handleError (st : SessState) (msg : String) : Except String SessState :=
  if fatalMsg msg then .error "CRITICAL: Disk is full or not writable!"
  else .ok { st with errors := st.errors + 1 }

/-- `ImportSession._process_result` (session.py lines 325-341): extend
the buffer with one file's full record list, flush when it reaches
`batch_size`. -/
def processResult (batchSize : Nat) (st : SessState) (rows : List Row) : SessState :=
  if rows.isEmpty then st
  else
    let st2 := { st with buffer := st.buffer ++ rows }
    if batchSize ≤ st2.buffer.length then flushBuffer st2 else st2

/-- Outcome of one In-Memory worker task (`worker_parse_task` /
`InMemoryParser.parse` run on one file): a full record list, Python
`None` for an unknown format, or a raised exception's message. -/
inductive FOutcome where
  | ok (rows : List Row)
  | skip
  | err (msg : String)
deriving DecidableEq, Repr

/-- One file as the In-Memory coordinator sees it. -/
structure PFile where
  name : String
  outcome : FOutcome
deriving DecidableEq, Repr

def rowsOf (f : PFile) : List Row :=
  match f.outcome with
  | .ok rows => rows
  | _ => []

/-- One iteration of `_run_serial` / the `_run_parallel` completion loop:
merge a result or route the failure through `_handle_error`. -/
def stepSerial (batchSize : Nat) (st : SessState) (f : PFile) : Except String SessState :=
  match f.outcome with
  | .ok rows => .ok (processResult batchSize st rows)
  | .skip => .ok st
  | .err m => handleError st m

/-- The In-Memory completion loop over the file list; a fatal error
aborts the loop, keeping the state at the abort point. -/
def runFiles (batchSize : Nat) (st : SessState) : List PFile → SessState × Option String
  | [] => (st, none)
  | f :: fs =>
    match stepSerial batchSize st f with
    | .ok st2 => runFiles batchSize st2 fs
    | .error e => (st, some e)

/-- `_run_in_memory_mode`: the completion loop, then the final
`_flush_buffer` (skipped when a fatal error is propagating). -/
def runInMemoryMode (batchSize : Nat) (st : SessState) (files : List PFile) :
    SessState × Option String :=
  match runFiles batchSize st files with
  | (st2, none) => (flushBuffer st2, none)
  | (st2, some e) => (st2, some e)

/-- `ingest(files, mode='legacy')`: empty file lists return before the
stat reset; otherwise stats are reset and the strategy runs. -/
def ingestLegacy (batchSize : Nat) (st : SessState) (files : List PFile) :
    SessState × Option String :=
  if files.isEmpty then (st, none)
  else runInMemoryMode batchSize { st with totalRoms := 0, errors := 0 } files

/-! ### Staged / Direct sessions and the staging directory -/

/-- Whole-machine state for the Staged strategy: session state, the
staging directory (`none` = absent, `some chunks` = present with those
chunk files), and everything else on the filesystem (abstract, to state
the frame condition). -/
structure FullState (α : Type) where
  sess : SessState
  temp : Option (List (List Row))
  outside : α

/-- `ImportSession._prepare_temp_dir` (session.py lines 343-352): remove
any existing staging directory, recreate it empty. -/
def prepareTempDir {α : Type} (st : FullState α) : FullState α :=
  { st with temp := some [] }

/-- The `finally` cleanup of `ingest` (session.py lines 141-143):
`shutil.rmtree` of the staging directory when it exists. -/
def removeTempDir {α : Type} (st : FullState α) : FullState α :=
  { st with temp := none }

/-- One file as the Staged coordinator sees it: the chunk files its
worker wrote into the staging directory, the `roms` stat it reported,
and the raised error if it failed (after having written `chunks`). -/
structure SFile where
  name : String
  chunks : List (List Row)
  roms : Nat
  err : Option String
deriving DecidableEq, Repr

/-- `worker_staged_task` wraps a worker failure as
`RuntimeError(f"Error in {basename}: {error}")`. -/
def wrapWorkerMsg (name msg : String) : String :=
  "Error in " ++ name ++ ": " ++ msg

/-- The `as_completed` loop of `_run_staged_mode` (session.py lines
197-231): chunks written by a worker land in the staging directory
whether or not the worker then failed; successes add to the total,
failures go through `_handle_error`, a fatal error aborts the loop. -/
def stagedLoop {α : Type} (st : FullState α) : List SFile → FullState α × Option String
  | [] => (st, none)
  | f :: fs =>
    let st1 := { st with temp := st.temp.map (· ++ f.chunks) }
    match f.err with
    | none =>
      stagedLoop
        { st1 with sess := { st1.sess with totalRoms := st1.sess.totalRoms + f.roms } } fs
    | some m =>
      match handleError st1.sess (wrapWorkerMsg f.name m) with
      | .ok s2 => stagedLoop { st1 with sess := s2 } fs
      | .error e => (st1, some e)

/-- `DatabaseManager.import_from_parquet_folder` via the bulk-load step
of `_run_staged_mode` (lines 234-243): insert every staged row into
`roms` (an empty directory is a no-op, which coincides with joining no
chunks). -/
def bulkImport {α : Type} (st : FullState α) : FullState α :=
  match st.temp with
  | some chunks => { st with sess := { st.sess with roms := st.sess.roms ++ chunks.flatten } }
  | none => st

/-- `ingest(files, mode='staged')`: early return on an empty list;
otherwise reset stats, prepare the staging directory, run the loop, bulk
load when any records were staged, and remove the staging directory in
the `finally` block on success and on fatal abort alike. -/
def runStagedSession {α : Type} (files : List SFile) (st : FullState α) :
    FullState α × Option String :=
  if files.isEmpty then (st, none)
  else
    let st0 := { st with sess := { st.sess with totalRoms := 0, errors := 0 } }
    let st1 := prepareTempDir st0
    match stagedLoop st1 files with
    | (st2, none) =>
      let st3 := if 0 < st2.sess.totalRoms then bulkImport st2 else st2
      (removeTempDir st3, none)
    | (st2, some e) => (removeTempDir st2, some e)

/-- One file as the Direct strategy sees it: the Arrow tables
`parse_to_arrow_stream` yielded before completing or failing, plus the
raised error if it failed. -/
structure DFile where
  name : String
  tables : List (List Row)
  err : Option String
deriving DecidableEq, Repr

/-- `_run_direct_mode` (session.py lines 246-276): insert each yielded
table into `roms` counting its rows; route a failure through
`_handle_error` after the tables already inserted; fatal aborts. -/
def directLoop (st : SessState) : List DFile → SessState × Option String
  | [] => (st, none)
  | f :: fs =>
    let st1 :=
      { st with
        roms := st.roms ++ f.tables.flatten
        totalRoms := st.totalRoms + f.tables.flatten.length }
    match f.err with
    | none => directLoop st1 fs
    | some m =>
      match handleError st1 m with
      | .ok s2 => directLoop s2 fs
      | .error e => (st1, some e)

/-- `ingest(files, mode='direct')`. -/
def ingestDirect (st : SessState) (files : List DFile) : SessState × Option String :=
  if files.isEmpty then (st, none)
  else directLoop { st with totalRoms := 0, errors := 0 } files

/-! ### Resume logic (cli.py `run_scan_mode`, lines 122-168) -/

/-- The resume filter: keep the scanned files whose base filename is not
in the processed set (cli.py line 165). -/
def filesToProcessResume (allFiles : List String) (processed : List String) : List String :=
  allFiles.filter (fun f => !(processed.contains (pyBasename f)))

/-- `if db_version and db_version != current_version` (an empty stored
version is falsy). -/
def versionMismatch (dbVersion : Option String) (cur : String) : Bool :=
  match dbVersion with
  | some v => !(v == "") && !(v == cur)
  | none => false

/-- The compatible-version branch of the resume decision: non-empty
processed set, then `--resume`, `--force-new`, or the interactive
prompt (`promptResume` = the user did not answer `s`). -/
def resumeBranchB (processed : List String) (resumeFlag forceNew promptResume : Bool) : Bool :=
  if processed.isEmpty then false
  else if resumeFlag then true
  else if forceNew then false
  else promptResume

/-- The full resume/wipe decision of `run_scan_mode`: `none` models the
user aborting at the version-mismatch prompt; `some b` is the final
`resume_mode`. -/
def decideResumeMode (dbVersion : Option String) (currentVersion : String)
    (processed : List String) (resumeFlag forceNew promptResume promptWipe : Bool) :
    Option Bool :=
  if versionMismatch dbVersion currentVersion then
    if forceNew then some false
    else if promptWipe then some false
    else none
  else some (resumeBranchB processed resumeFlag forceNew promptResume)

/-- The file list handed to the session by `run_scan_mode`: everything on
a fresh start, the resume filter when resuming. -/
def scanFilesToProcess (dbVersion : Option String) (currentVersion : String)
    (allFiles processed : List String)
    (resumeFlag forceNew promptResume promptWipe : Bool) : Option (List String) :=
  (decideResumeMode dbVersion currentVersion processed
      resumeFlag forceNew promptResume promptWipe).map
    (fun rm => if rm then filesToProcessResume allFiles processed else allFiles)

/-! ### Auxiliary definitions used by the theorem statements -/

/-- A size token that the hex branch of `_try_parse_size` accepts: it
normalizes to something `0x`/`$`-prefixed whose `$`-stripped remainder is
valid for `int(_, 16)`. -/
def validHexToken (raw : String) : Bool :=
  let s := pyLower (pyStripL raw.toList)
  (startsWithL ['0', 'x'] s || startsWithL ['$'] s) &&
    (pyIntBase16 (s.filter (· ≠ '$'))).isSome

/-- A 1500-byte binary blob (control characters, no recognizable
header): stands in for a truncated binary file's decoded head. -/
def binaryBlob : List Char := List.replicate 1500 (Char.ofNat 1)

/-- Common info for the concrete example files. -/
def ciDemo : CommonInfo := getCommonInfo "/data/Sys/Plat - Cat.dat"

/-- A small MAME-style document: one element tagged `machine` holding one
rom.  `iterparse`-based extraction visits it; `root.findall('game')` does
not. -/
def machineDoc : List GameElem :=
  [⟨"machine", some "Pac-Man (1980)", none,
    [⟨some "pac.rom", some "100", some "abcd1234", none, none, none⟩]⟩]

/-- Two well-formed `game ( … )` blocks, one rom each; the first block
contains a nested parenthesized group spanning lines. -/
def cmpNestedText : List Char :=
  ("game (\nname \"G1\"\nfoo (\n)\nrom ( name \"a.rom\" size 1 crc aa )\n)\n" ++
   "game (\nname \"G2\"\nrom ( name \"b.rom\" size 2 crc bb )\n)").toList

/-- A legacy-text file whose rom carries an unparsable size token. -/
def cmpBadSizeText : List Char :=
  ("game (\nname \"G\"\nrom ( name \"x.bin\" size banana crc zz )\n)").toList

/-- The row lists of the files whose In-Memory parse returned a list
(the order the coordinator merges them in). -/
def okRowLists (files : List PFile) : List (List Row) :=
  files.filterMap fun f =>
    match f.outcome with
    | .ok rows => some rows
    | _ => none

/-- A concrete record for the session examples. -/
def demoRow (fn : String) : Row :=
  ⟨fn, "P", "C", some "G", "G", none, some "", some "r.rom", .num 1,
    some "", some "", some "", "good", "S"⟩

/-- Two files for the session examples: one parses to a single record,
one fails. -/
def demoPFiles : List PFile :=
  [⟨"a.dat", .ok [demoRow "a.dat"]⟩, ⟨"b.dat", .err "boom"⟩]

/-- A fresh session state. -/
def emptySess : SessState := ⟨[], [], [], 0, 0⟩

/-! ### The well-formed two-block CMP family (for the block-binding claim) -/

/-- Parameters of one well-formed `game ( … )` block holding one
`rom ( … )`: game name, rom name, decimal size token, hex crc token. -/
structure GameDesc where
  gname : List Char
  rname : List Char
  sizeDigits : List Char
  crc : List Char
deriving DecidableEq, Repr

/-- The block text of one such game. -/
def mkGame (g : GameDesc) : List Char :=
  "game (\n name \"".toList ++ g.gname ++ "\"\n rom ( name \"".toList ++ g.rname ++
    "\" size ".toList ++ g.sizeDigits ++ " crc ".toList ++ g.crc ++ " )\n)".toList

/-- A legacy-text input holding exactly two such blocks. -/
def mkCmpTwo (g1 g2 : GameDesc) : List Char := mkGame g1 ++ '\n' :: mkGame g2

/-- Parenthesis-depth scan: `some` of the final depth when the text never
closes below depth zero, else `none`. -/
def dyckRun : List Char → Nat → Option Nat
  | [], d => some d
  | c :: rest, d =>
    if c = '(' then dyckRun rest (d + 1)
    else if c = ')' then
      match d with
      | 0 => none
      | d2 + 1 => dyckRun rest d2
    else dyckRun rest d

/-- Does `kw\s*\(` match anywhere (fully) inside the text? -/
def hasOpenPat (kw : List Char) : List Char → Bool
  | [] => false
  | c :: rest => (kwOpenLen kw (c :: rest)).isSome || hasOpenPat kw rest

def noQuoteNoNL (l : List Char) : Bool := l.all fun c => !(c = '"' || c = '\n')

def parenFree (l : List Char) : Bool := l.all fun c => !(c = '(' || c = ')')

def noWsL (l : List Char) : Bool := l.all fun c => !(pyWs c)

/-- Well-formedness of a block's parameters: the game name is quote- and
newline-free, parenthesis-balanced (never closing below its own level),
and contains no `game\s*\(` / `rom\s*\(` occurrence of its own; the rom
name is quote-, newline-, parenthesis- and whitespace-free; the size
token is a non-empty digit run and the crc a non-empty hex run. -/
def wfGameDesc (g : GameDesc) : Bool :=
  noQuoteNoNL g.gname && (dyckRun g.gname 0 == some 0) &&
    !(hasOpenPat "game".toList g.gname) && !(hasOpenPat "rom".toList g.gname) &&
    noQuoteNoNL g.rname && parenFree g.rname && noWsL g.rname &&
    g.sizeDigits.all Char.isDigit && !g.sizeDigits.isEmpty &&
    g.crc.all isHexChar && !g.crc.isEmpty

/-- The suffix of `mkGame g ++ …` after its opening token `game (`,
with `X` the text following the block. -/
def cmpTail (g : GameDesc) (X : List Char) : List Char :=
  "\n name \"".toList ++ (g.gname ++ ("\"\n rom ( name \"".toList ++ (g.rname ++
    ("\" size ".toList ++ (g.sizeDigits ++ (" crc ".toList ++ (g.crc ++
      (" )\n)".toList ++ X))))))))

/-- The bracket-counted block text the depth scanner extracts for one
such game (everything up to its closing parenthesis). -/
def cmpBlock (g : GameDesc) : List Char :=
  "\n name \"".toList ++ (g.gname ++ ("\"\n rom ( name \"".toList ++ (g.rname ++
    ("\" size ".toList ++ (g.sizeDigits ++ (" crc ".toList ++ (g.crc ++ " )\n".toList)))))))

/-- The stripped `ROM_PAT` capture for one such game's rom. -/
def cmpRd (g : GameDesc) : List Char :=
  "name \"".toList ++ (g.rname ++ ("\" size ".toList ++ (g.sizeDigits ++
    (" crc ".toList ++ g.crc))))

/-- A block family member whose game name itself contains a
parenthesized group. -/
def gdNest1 : GameDesc :=
  ⟨"Dragonstone (1994)".toList, "drag.bin".toList, "42".toList, "ab12".toList⟩

def gdNest2 : GameDesc := ⟨"G2".toList, "b.rom".toList, "7".toList, "ff".toList⟩

/-- Staged-session demo input. -/
def demoSFiles : List SFile := [⟨"a.dat", [[demoRow "a.dat"]], 1, none⟩]

/-- Direct-session demo input. -/
def demoDFiles : List DFile := [⟨"a.dat", [[demoRow "a.dat"]], none⟩]

/-- A whole-machine demo state carrying a stale staging directory. -/
def demoFull : FullState Nat := ⟨emptySess, some [[demoRow "stale.dat"]], 7⟩

/-! ## Theorems -/

/-! ### Character-level helper lemmas -/

theorem pyLowerChar_isDigit (c : Char) : (pyLowerChar c).isDigit = c.isDigit := by
  unfold pyLowerChar
  split <;> rfl

theorem mem_dropWhile {p : Char → Bool} {l : List Char} {c : Char}
    (h : c ∈ l.dropWhile p) : c ∈ l :=
  (List.dropWhile_sublist p (l := l)).mem h

theorem mem_pyStripL {l : List Char} {c : Char} (h : c ∈ pyStripL l) : c ∈ l := by
  unfold pyStripL at h
  rw [List.mem_reverse] at h
  have h2 := mem_dropWhile h
  rw [List.mem_reverse] at h2
  exact mem_dropWhile h2

theorem firstDigitRun_none {l : List Char} (h : ∀ c ∈ l, c.isDigit = false) :
    firstDigitRun l = none := by
  induction l with
  | nil => rfl
  | cons c rest ih =>
    unfold firstDigitRun
    rw [if_neg]
    · exact ih fun d hd => h d (List.mem_cons_of_mem c hd)
    · simp [h c (List.mem_cons_self c rest)]

/-! ### C7 -/

/-- C7: the format detector is total over read results: it returns one of
exactly three tags, inspects at most the first 1024 characters of the
decoded head, maps an unreadable file to `unknown` instead of raising,
and classifies a 1KB-truncated binary blob as `unknown`. -/
theorem C7_format_detector :
    (∀ r, detectFileFormat r = .xml ∨ detectFileFormat r = .cmp ∨
      detectFileFormat r = .unknown) ∧
    (∀ cs : List Char, detectFileFormat (some cs) = detectFileFormat (some (cs.take 1024))) ∧
    detectFileFormat none = .unknown ∧
    detectFileFormat (some binaryBlob) = .unknown := by
  refine ⟨?_, ?_, rfl, ?_⟩
  · intro r
    cases r with
    | none => right; right; rfl
    | some cs =>
      simp only [detectFileFormat]
      split
      · left; rfl
      · split
        · right; left; rfl
        · right; right; rfl
  · intro cs
    simp only [detectFileFormat, List.take_take]
    norm_num
  · decide

/-! ### C2 -/

/-- C2: `_try_parse_size` returns 0 on the absent and on the empty token,
normalizes `"1024"`, `"1kb"`, `"0x10"`, `"10 mb"` as specified, raises on
the malformed hex token `"0xZZ"`, and raises on every non-empty token
that contains no decimal digit and is not a valid `$`/`0x`-prefixed
hexadecimal — never silently returning 0 for such a token. -/
theorem C2_size_normalizer :
    tryParseSize none = .ok 0 ∧
    tryParseSize (some "") = .ok 0 ∧
    tryParseSize (some "1024") = .ok 1024 ∧
    tryParseSize (some "1kb") = .ok 1024 ∧
    tryParseSize (some "0x10") = .ok 16 ∧
    tryParseSize (some "10 mb") = .ok 10485760 ∧
    isErr (tryParseSize (some "0xZZ")) = true ∧
    ∀ raw : String, raw ≠ "" →
      (∀ c ∈ raw.toList, c.isDigit = false) →
      validHexToken raw = false →
      isErr (tryParseSize (some raw)) = true := by
  refine ⟨by decide, by decide, by decide, by decide, by decide, by decide, by decide, ?_⟩
  intro raw hne hdig hhex
  have hsd : ∀ c ∈ pyLower (pyStripL raw.toList), c.isDigit = false := by
    intro c hc
    unfold pyLower at hc
    rw [List.mem_map] at hc
    obtain ⟨c0, hc0, rfl⟩ := hc
    rw [pyLowerChar_isDigit]
    exact hdig c0 (mem_pyStripL hc0)
  simp only [tryParseSize]
  rw [if_neg hne]
  cases hpre : startsWithL ['0', 'x'] (pyLower (pyStripL raw.toList)) ||
      startsWithL ['$'] (pyLower (pyStripL raw.toList)) with
  | true =>
    simp only [hpre, if_true]
    unfold validHexToken at hhex
    simp only [hpre, Bool.true_and] at hhex
    cases hpi : pyIntBase16 ((pyLower (pyStripL raw.toList)).filter (· ≠ '$')) with
    | some n => rw [hpi] at hhex; simp at hhex
    | none => rfl
  | false =>
    simp only [hpre, Bool.false_eq_true, if_false]
    rw [firstDigitRun_none hsd]
    rfl

/-- Witness for C2's universal clause at the digit-free token `"abc"`. -/
theorem C2_size_normalizer_witness :
    isErr (tryParseSize (some "abc")) = true :=
  C2_size_normalizer.2.2.2.2.2.2.2 "abc" (by decide) (by decide) (by decide)

/-! ### C8 -/

/-- C8: `_handle_error` re-raises a single fatal error exactly when the
lowered message contains a disk-exhaustion or read-only-filesystem
indication; on every other error it increments the tally by exactly one,
leaves the buffer, destination table and checkpoint set untouched, and
returns normally (no exception escapes). -/
theorem C8_handle_error :
    ∀ (st : SessState) (msg : String),
      (isErr (handleError st msg) = true ↔
        (containsSub "not enough space".toList (pyLower msg.toList) = true ∨
          containsSub "read-only file system".toList (pyLower msg.toList) = true)) ∧
      (fatalMsg msg = true →
        handleError st msg = .error "CRITICAL: Disk is full or not writable!") ∧
      (fatalMsg msg = false →
        handleError st msg = .ok { st with errors := st.errors + 1 }) ∧
      (∀ st2, handleError st msg = .ok st2 →
        st2.processed = st.processed ∧ st2.roms = st.roms ∧ st2.buffer = st.buffer ∧
          st2.totalRoms = st.totalRoms ∧ st2.errors = st.errors + 1) := by
  intro st msg
  have hiff : fatalMsg msg = true ↔
      (containsSub "not enough space".toList (pyLower msg.toList) = true ∨
        containsSub "read-only file system".toList (pyLower msg.toList) = true) := by
    unfold fatalMsg
    rw [Bool.or_eq_true]
  by_cases hf : fatalMsg msg = true
  · have he : handleError st msg = .error "CRITICAL: Disk is full or not writable!" := by
      unfold handleError
      rw [if_pos hf]
    refine ⟨?_, fun _ => he, fun hc => absurd hf (by simp [hc]), fun st2 h2 => ?_⟩
    · rw [he]
      simp only [isErr]
      simpa using hiff.mp hf
    · rw [he] at h2
      simp at h2
  · have hf2 : fatalMsg msg = false := by simpa using hf
    have he : handleError st msg = .ok { st with errors := st.errors + 1 } := by
      unfold handleError
      rw [if_neg hf]
    refine ⟨?_, fun hc => absurd hc hf, fun _ => he, fun st2 h2 => ?_⟩
    · rw [he]
      simp only [isErr]
      constructor
      · intro hbad
        simp at hbad
      · intro hab
        exact absurd (hiff.mpr hab) hf
    · rw [he] at h2
      injection h2 with h3
      subst h3
      exact ⟨rfl, rfl, rfl, rfl, rfl⟩

/-- Witness for C8 at a concrete recoverable error. -/
theorem C8_handle_error_witness :
    handleError emptySess "boom" = .ok { emptySess with errors := emptySess.errors + 1 } :=
  (C8_handle_error emptySess "boom").2.2.1 (by decide)

/-! ### C5 -/

/-- C5: when the stored version is compatible and the processed set is
non-empty, running with `--resume` selects exactly the scanned files
whose base filename is not in the processed set; with `{A,B,C}`
processed and `{A,B,C,D}` presented, only `D` is selected. -/
theorem C5_resume_selection :
    ∀ (dbVersion : Option String) (cur : String) (allFiles processed : List String)
      (forceNew promptResume promptWipe : Bool),
      versionMismatch dbVersion cur = false →
      processed ≠ [] →
      (scanFilesToProcess dbVersion cur allFiles processed true forceNew promptResume promptWipe
          = some (filesToProcessResume allFiles processed) ∧
        (∀ f, f ∈ filesToProcessResume allFiles processed ↔
          f ∈ allFiles ∧ pyBasename f ∉ processed) ∧
        scanFilesToProcess dbVersion cur ["/r/A.dat", "/r/B.dat", "/r/C.dat", "/r/D.dat"]
            ["A.dat", "B.dat", "C.dat"] true forceNew promptResume promptWipe
          = some ["/r/D.dat"]) := by
  intro dbv cur allF proc fN pR pW hvm hne
  have hb : resumeBranchB proc true fN pR = true := by
    unfold resumeBranchB
    rw [if_neg (by simpa using hne)]
    rfl
  refine ⟨?_, ?_, ?_⟩
  · unfold scanFilesToProcess decideResumeMode
    rw [hvm]
    simp [hb]
  · intro f
    unfold filesToProcessResume
    rw [List.mem_filter]
    simp [List.contains, List.elem_eq_mem]
  · unfold scanFilesToProcess decideResumeMode
    rw [hvm]
    simp only [Bool.false_eq_true, if_false, Option.map_some]
    rw [show resumeBranchB ["A.dat", "B.dat", "C.dat"] true fN pR = true from rfl]
    decide

/-- Witness for C5 at a concrete compatible-version state. -/
theorem C5_resume_selection_witness :
    scanFilesToProcess (some "TOSEC-v2023-01-01") "TOSEC-v2023-01-01"
        ["/r/A.dat", "/r/B.dat", "/r/C.dat", "/r/D.dat"] ["A.dat", "B.dat", "C.dat"]
        true false false false
      = some ["/r/D.dat"] :=
  (C5_resume_selection (some "TOSEC-v2023-01-01") "TOSEC-v2023-01-01"
    ["/r/A.dat", "/r/B.dat", "/r/C.dat", "/r/D.dat"] ["A.dat", "B.dat", "C.dat"]
    false false false (by decide) (by decide)).2.2

/-! ### C1 counterexample and C3 counterexample -/

/-- C1 fails as stated: on a MAME-style file whose game elements are
tagged `machine`, the In-Memory strategy extracts 0 records while the
Staged and Direct pipelines extract 1, and the (rom_name, size, crc)
multisets differ. -/
theorem C1_cross_strategy_cex :
    ((InMemoryParser.parse ciDemo (.xml machineDoc)).getD []).length = 0 ∧
    (TurboParser.parseAndSaveChunks ciDemo 500000 (.xml machineDoc)).err = none ∧
    (TurboParser.parseAndSaveChunks ciDemo 500000 (.xml machineDoc)).roms = 1 ∧
    ((TurboParser.parseToArrowStream ciDemo 50000 (.xml machineDoc)).1.flatten).length = 1 ∧
    ((TurboParser.parseAndSaveChunks ciDemo 500000 (.xml machineDoc)).chunks.flatten).map
        (fun r => (r.rom_name, r.size, r.crc)) ≠
      ((InMemoryParser.parse ciDemo (.xml machineDoc)).getD []).map
        (fun r => (r.rom_name, r.size, r.crc)) := by
  refine ⟨rfl, rfl, rfl, rfl, ?_⟩
  decide

/-- C3 fails as stated: a legacy-text rom whose size token is
unparsable (`size banana`, which `_try_parse_size` rejects) is still
emitted, silently zero-sized, by both CMP extraction paths. -/
theorem C3_silent_zero_cex :
    isErr (tryParseSize (some "banana")) = true ∧
    (TurboParser.parseCmp ciDemo cmpBadSizeText).map (fun r => (r.rom_name, r.size))
      = [(some "x.bin", SizeVal.num 0)] ∧
    (InMemoryParser.parseCmp ciDemo cmpBadSizeText).map (fun r => (r.rom_name, r.size))
      = [(some "x.bin", SizeVal.num 0)] := by
  refine ⟨by decide, by decide, by decide⟩

/-! ### C10 -/

theorem mkXmlRow_title_year (ci : CommonInfo) (g : GameElem) (r : RomElem) (sz : SizeVal) :
    ((mkXmlRow ci g r sz).title, (mkXmlRow ci g r sz).release_year) =
      parseGameInfo (mkXmlRow ci g r sz).game_name := by
  simp [mkXmlRow]

theorem cmpBlockRows_title_year (ci : CommonInfo) (block : List Char) :
    ∀ row ∈ cmpBlockRows ci block,
      (row.title, row.release_year) = parseGameInfo row.game_name := by
  intro row h
  unfold cmpBlockRows at h
  rw [List.mem_filterMap] at h
  obtain ⟨rd, _, hmk⟩ := h
  split at hmk
  · exact absurd hmk (by simp)
  · cases hmk
    rfl

theorem turboRomLoop_title_year (ci : CommonInfo) (g : GameElem) :
    ∀ (roms : List RomElem) (row : Row), row ∈ (turboRomLoop ci g roms).1 →
      (row.title, row.release_year) = parseGameInfo row.game_name := by
  intro roms
  induction roms with
  | nil => intro row h; simp [turboRomLoop] at h
  | cons r rest ih =>
    intro row h
    unfold turboRomLoop at h
    split at h
    · simp at h
    · rcases List.mem_cons.mp h with hh | ht
      · subst hh; exact mkXmlRow_title_year ci g r _
      · exact ih row ht

theorem turboXmlLoop_title_year (ci : CommonInfo) :
    ∀ (doc : List GameElem) (row : Row), row ∈ (turboXmlLoop ci doc).1 →
      (row.title, row.release_year) = parseGameInfo row.game_name := by
  intro doc
  induction doc with
  | nil => intro row h; simp [turboXmlLoop] at h
  | cons g rest ih =>
    intro row h
    unfold turboXmlLoop at h
    split at h
    · split at h
      · rename_i rows e heq
        exact turboRomLoop_title_year ci g g.roms row (by rw [heq]; exact h)
      · rename_i rows heq
        rcases List.mem_append.mp h with hl | hr
        · exact turboRomLoop_title_year ci g g.roms row (by rw [heq]; exact hl)
        · exact ih row hr
    · exact ih row h

theorem mkTurboCmpRow_title_year (ci : CommonInfo) (nm ds : String) (l rn : List Char) :
    ((mkTurboCmpRow ci nm ds l rn).title, (mkTurboCmpRow ci nm ds l rn).release_year) =
      parseGameInfo (mkTurboCmpRow ci nm ds l rn).game_name := by
  simp [mkTurboCmpRow]

theorem turboCmpAux_title_year (ci : CommonInfo) :
    ∀ (lines : List (List Char)) (inB : Bool) (nm ds : String) (row : Row),
      row ∈ turboCmpAux ci lines inB nm ds →
      (row.title, row.release_year) = parseGameInfo row.game_name := by
  intro lines
  induction lines with
  | nil => intro inB nm ds row h; simp [turboCmpAux] at h
  | cons line rest ih =>
    intro inB nm ds row h
    simp only [turboCmpAux] at h
    split at h
    · exact ih _ _ _ _ h
    · split at h
      · exact ih _ _ _ _ h
      · split at h
        · exact ih _ _ _ _ h
        · split at h
          · split at h
            · exact ih _ _ _ _ h
            · split at h
              · exact ih _ _ _ _ h
              · split at h
                · split at h
                  · exact ih _ _ _ _ h
                  · rcases List.mem_cons.mp h with hh | ht
                    · subst hh; exact mkTurboCmpRow_title_year ci _ _ _ _
                    · exact ih _ _ _ _ ht
                · exact ih _ _ _ _ h
          · exact ih _ _ _ _ h

theorem inMemory_title_year (ci : CommonInfo) (f : FileContent) :
    ∀ rows, InMemoryParser.parse ci f = some rows → ∀ row ∈ rows,
      (row.title, row.release_year) = parseGameInfo row.game_name := by
  intro rows hp row h
  cases f with
  | unknown => simp [InMemoryParser.parse] at hp
  | xml doc =>
    simp only [InMemoryParser.parse, Option.some.injEq] at hp
    subst hp
    unfold InMemoryParser.parseXml at h
    rw [List.mem_flatMap] at h
    obtain ⟨g, _, hg⟩ := h
    rw [List.mem_map] at hg
    obtain ⟨r, _, hr⟩ := hg
    subst hr
    exact mkXmlRow_title_year ci g r _
  | cmp text =>
    simp only [InMemoryParser.parse, Option.some.injEq] at hp
    subst hp
    unfold InMemoryParser.parseCmp at h
    rw [List.mem_flatMap] at h
    obtain ⟨block, _, hb⟩ := h
    exact cmpBlockRows_title_year ci block row hb

theorem turbo_title_year (ci : CommonInfo) (f : FileContent) :
    ∀ row ∈ (TurboParser.parse ci f).1,
      (row.title, row.release_year) = parseGameInfo row.game_name := by
  intro row h
  cases f with
  | unknown => simp [TurboParser.parse] at h
  | xml doc => exact turboXmlLoop_title_year ci doc row h
  | cmp text => exact turboCmpAux_title_year ci _ _ _ _ row h

/-- C10: `parse_game_info` maps a missing or empty game name to the
placeholder title `"Unknown"` with no release year, and every record any
extraction path builds derives its title/year from its own game name via
`parse_game_info` — so a record whose game element lacked a `name`
attribute carries title `"Unknown"` and an absent year. -/
theorem C10_unknown_title :
    parseGameInfo none = ("Unknown", none) ∧
    parseGameInfo (some "") = ("Unknown", none) ∧
    (∀ (ci : CommonInfo) (f : FileContent) (rows : List Row),
      InMemoryParser.parse ci f = some rows → ∀ row ∈ rows,
        (row.title, row.release_year) = parseGameInfo row.game_name) ∧
    (∀ (ci : CommonInfo) (f : FileContent), ∀ row ∈ (TurboParser.parse ci f).1,
      (row.title, row.release_year) = parseGameInfo row.game_name) ∧
    (∀ (ci : CommonInfo) (f : FileContent), ∀ row ∈ (TurboParser.parse ci f).1,
      row.game_name = none → row.title = "Unknown" ∧ row.release_year = none) := by
  refine ⟨rfl, by decide, inMemory_title_year, turbo_title_year, ?_⟩
  intro ci f row h hn
  have := turbo_title_year ci f row h
  rw [hn] at this
  exact ⟨congrArg Prod.fst this, congrArg Prod.snd this⟩

/-- Witness for C10 on a concrete element with no `name` attribute. -/
theorem C10_unknown_title_witness :
    ∀ row ∈ (TurboParser.parse ciDemo
        (.xml [⟨"game", none, none, [⟨some "a.rom", some "1", none, none, none, none⟩]⟩])).1,
      row.title = "Unknown" ∧ row.release_year = none := by
  intro row h
  exact C10_unknown_title.2.2.2.2 ciDemo _ row h (by
    have h2 := List.mem_singleton.mp (by exact_mod_cast h)
    rw [h2]
    rfl)

/-! ### C3 amended -/

theorem turboRomLoop_err_iff (ci : CommonInfo) (g : GameElem) :
    ∀ roms : List RomElem, (turboRomLoop ci g roms).2 = none ↔
      ∀ r ∈ roms, isErr (tryParseSize r.size) = false := by
  intro roms
  induction roms with
  | nil => simp [turboRomLoop]
  | cons r rest ih =>
    unfold turboRomLoop
    cases hts : tryParseSize r.size with
    | error e =>
      simp only [List.mem_cons]
      constructor
      · intro hbad; simp at hbad
      · intro hall
        have := hall r (Or.inl rfl)
        rw [hts] at this
        simp [isErr] at this
    | ok n =>
      simp only [List.mem_cons]
      constructor
      · intro h2 r2 hr2
        rcases hr2 with rfl | hr2
        · rw [hts]; rfl
        · exact (ih.mp h2) r2 hr2
      · intro hall
        exact ih.mpr fun r2 hr2 => hall r2 (Or.inr hr2)

theorem turboRomLoop_sizes (ci : CommonInfo) (g : GameElem) :
    ∀ (roms : List RomElem) (row : Row), row ∈ (turboRomLoop ci g roms).1 →
      ∃ n : Int, row.size = .num n := by
  intro roms
  induction roms with
  | nil => intro row h; simp [turboRomLoop] at h
  | cons r rest ih =>
    intro row h
    unfold turboRomLoop at h
    split at h
    · simp at h
    · rcases List.mem_cons.mp h with hh | ht
      · subst hh; exact ⟨_, rfl⟩
      · exact ih row ht

theorem turboXmlLoop_err_iff (ci : CommonInfo) :
    ∀ doc : List GameElem, (turboXmlLoop ci doc).2 = none ↔
      ∀ g ∈ doc, (g.tag = "game" ∨ g.tag = "machine") →
        ∀ r ∈ g.roms, isErr (tryParseSize r.size) = false := by
  intro doc
  induction doc with
  | nil => simp [turboXmlLoop]
  | cons g rest ih =>
    unfold turboXmlLoop
    by_cases htag : (g.tag == "game" || g.tag == "machine") = true
    · rw [if_pos htag]
      have htag2 : g.tag = "game" ∨ g.tag = "machine" := by
        rw [Bool.or_eq_true] at htag
        rcases htag with h1 | h1
        · exact Or.inl (by simpa using h1)
        · exact Or.inr (by simpa using h1)
      cases hrl : turboRomLoop ci g g.roms with
      | mk rows err =>
        cases err with
        | some e =>
          simp only [List.mem_cons]
          constructor
          · intro hbad; simp at hbad
          · intro hall
            have h2 := (turboRomLoop_err_iff ci g g.roms).mpr
              (fun r hr => hall g (Or.inl rfl) htag2 r hr)
            rw [hrl] at h2
            simp at h2
        | none =>
          simp only [List.mem_cons]
          constructor
          · intro h2 g2 hg2 htg2 r hr
            rcases hg2 with rfl | hg2
            · exact (turboRomLoop_err_iff ci g2 g2.roms).mp (by rw [hrl]) r hr
            · exact ih.mp h2 g2 hg2 htg2 r hr
          · intro hall
            exact ih.mpr fun g2 hg2 htg2 r hr => hall g2 (Or.inr hg2) htg2 r hr
    · rw [if_neg htag]
      have htag2 : ¬(g.tag = "game" ∨ g.tag = "machine") := by
        intro hc
        rcases hc with hc | hc <;> simp [hc] at htag
      constructor
      · intro h2 g2 hg2 htg2 r hr
        rcases List.mem_cons.mp hg2 with rfl | hg2
        · exact absurd htg2 htag2
        · exact ih.mp h2 g2 hg2 htg2 r hr
      · intro hall
        exact ih.mpr fun g2 hg2 htg2 r hr => hall g2 (List.mem_cons_of_mem g hg2) htg2 r hr

theorem turboXmlLoop_sizes (ci : CommonInfo) :
    ∀ (doc : List GameElem) (row : Row), row ∈ (turboXmlLoop ci doc).1 →
      ∃ n : Int, row.size = .num n := by
  intro doc
  induction doc with
  | nil => intro row h; simp [turboXmlLoop] at h
  | cons g rest ih =>
    intro row h
    unfold turboXmlLoop at h
    split at h
    · split at h
      · rename_i rows e heq
        exact turboRomLoop_sizes ci g g.roms row (by rw [heq]; exact h)
      · rename_i rows heq
        rcases List.mem_append.mp h with hl | hr
        · exact turboRomLoop_sizes ci g g.roms row (by rw [heq]; exact hl)
        · exact ih row hr
    · exact ih row h

/-- C3 amended: in `TurboParser._parse_xml` (the extraction used by the
Staged and Direct strategies) an unparsable size token is a hard failure —
the parse of the file raises, and it completes without error exactly when
every rom's size token parses — and every record this path emits carries a
parsed integer size.  (The CMP paths instead zero unparsable sizes, and
`InMemoryParser._parse_xml` stores the raw token: see the
counterexample.) -/
theorem C3_xml_hard_failure :
    ∀ (ci : CommonInfo) (doc : List GameElem),
      ((TurboParser.parseXml ci doc).2 = none ↔
        ∀ g ∈ doc, (g.tag = "game" ∨ g.tag = "machine") →
          ∀ r ∈ g.roms, isErr (tryParseSize r.size) = false) ∧
      (∀ row ∈ (TurboParser.parseXml ci doc).1, ∃ n : Int, row.size = .num n) := by
  intro ci doc
  exact ⟨turboXmlLoop_err_iff ci doc, fun row h => turboXmlLoop_sizes ci doc row h⟩

/-- Witness for C3's amended statement: a document whose single rom has
size `"banana"` makes the Turbo XML parse raise. -/
theorem C3_xml_hard_failure_witness :
    (TurboParser.parseXml ciDemo
      [⟨"game", some "G", none, [⟨some "a.rom", some "banana", none, none, none, none⟩]⟩]).2
      ≠ none := by
  intro hc
  have h2 := (C3_xml_hard_failure ciDemo
    [⟨"game", some "G", none, [⟨some "a.rom", some "banana", none, none, none, none⟩]⟩]).1.mp hc
  have h3 := h2 _ (List.mem_singleton.mpr rfl) (Or.inl rfl)
    ⟨some "a.rom", some "banana", none, none, none, none⟩ (List.mem_singleton.mpr rfl)
  simp only at h3
  exact absurd h3 (by decide)

/-! ### C1 amended -/

theorem chunkFlushLoop_flatten (n : Nat) :
    ∀ (l buf : List Row), (chunkFlushLoop n buf l).flatten = buf ++ l := by
  intro l
  induction l with
  | nil =>
    intro buf
    simp only [chunkFlushLoop]
    split
    · simp [List.isEmpty_iff.mp ‹buf.isEmpty = true›]
    · simp
  | cons r rest ih =>
    intro buf
    simp only [chunkFlushLoop]
    split
    · simp [ih]
    · simp [ih]

/-- C1 amended: for every input file on which `TurboParser.parse`
completes, the Staged pipeline (`parse_and_save_chunks`, chunk size
500000) and the Direct pipeline (`parse_to_arrow_stream`, chunk size
50000) produce the same records in the same order — hence the same total
record count and the same multiset of (rom_name, size, crc) tuples,
identical modulo flush boundaries.  (The In-Memory strategy is not
equivalent to them: see the counterexample.) -/
theorem C1_staged_direct_equiv :
    ∀ (ci : CommonInfo) (f : FileContent),
      (TurboParser.parseAndSaveChunks ci 500000 f).err = none →
      ((TurboParser.parseToArrowStream ci 50000 f).2 = none ∧
        (TurboParser.parseAndSaveChunks ci 500000 f).chunks.flatten =
          (TurboParser.parseToArrowStream ci 50000 f).1.flatten ∧
        (TurboParser.parseAndSaveChunks ci 500000 f).roms =
          ((TurboParser.parseToArrowStream ci 50000 f).1.flatten).length ∧
        ((TurboParser.parseAndSaveChunks ci 500000 f).chunks.flatten).map
            (fun r => (r.rom_name, r.size, r.crc)) =
          ((TurboParser.parseToArrowStream ci 50000 f).1.flatten).map
            (fun r => (r.rom_name, r.size, r.crc))) := by
  intro ci f herr
  unfold TurboParser.parseAndSaveChunks at herr ⊢
  unfold TurboParser.parseToArrowStream
  rcases hp : TurboParser.parse ci f with ⟨rows, err⟩
  rw [hp] at herr
  cases err with
  | some e => exact Option.noConfusion herr
  | none =>
    dsimp only
    refine ⟨rfl, ?_, ?_, ?_⟩
    · rw [chunkFlushLoop_flatten, chunkFlushLoop_flatten]
    · rw [chunkFlushLoop_flatten]
      simp
    · rw [chunkFlushLoop_flatten, chunkFlushLoop_flatten]

/-- Witness for C1's amended statement on the machine-tagged document. -/
theorem C1_staged_direct_equiv_witness :
    (TurboParser.parseToArrowStream ciDemo 50000 (.xml machineDoc)).2 = none ∧
      (TurboParser.parseAndSaveChunks ciDemo 500000 (.xml machineDoc)).chunks.flatten =
        (TurboParser.parseToArrowStream ciDemo 50000 (.xml machineDoc)).1.flatten ∧
      (TurboParser.parseAndSaveChunks ciDemo 500000 (.xml machineDoc)).roms =
        ((TurboParser.parseToArrowStream ciDemo 50000 (.xml machineDoc)).1.flatten).length ∧
      ((TurboParser.parseAndSaveChunks ciDemo 500000 (.xml machineDoc)).chunks.flatten).map
          (fun r => (r.rom_name, r.size, r.crc)) =
        ((TurboParser.parseToArrowStream ciDemo 50000 (.xml machineDoc)).1.flatten).map
          (fun r => (r.rom_name, r.size, r.crc)) :=
  C1_staged_direct_equiv ciDemo (.xml machineDoc) (by decide)

/-! ### C9 -/

theorem stagedLoop_frame {α : Type} :
    ∀ (files : List SFile) (st : FullState α),
      (stagedLoop st files).1.outside = st.outside ∧
      (stagedLoop st files).1.sess.processed = st.sess.processed ∧
      (stagedLoop st files).1.sess.roms = st.sess.roms ∧
      (stagedLoop st files).1.sess.buffer = st.sess.buffer := by
  intro files
  induction files with
  | nil => intro st; exact ⟨rfl, rfl, rfl, rfl⟩
  | cons f fs ih =>
    intro st
    cases hfe : f.err with
    | none =>
      simp only [stagedLoop, hfe]
      exact ih _
    | some m =>
      simp only [stagedLoop, hfe]
      split
      · rename_i s2 heq
        unfold handleError at heq
        split at heq
        · exact Except.noConfusion heq
        · injection heq with h
          subst h
          exact ih _
      · exact ⟨rfl, rfl, rfl, rfl⟩

theorem bulkImport_frame {α : Type} (st : FullState α) :
    (bulkImport st).outside = st.outside ∧
    (bulkImport st).sess.processed = st.sess.processed ∧
    (bulkImport st).temp = st.temp := by
  unfold bulkImport
  split <;> exact ⟨rfl, rfl, rfl⟩

/-- C9: the Staged strategy clears the staging directory at strategy
start (`_prepare_temp_dir` leaves it freshly empty, touching nothing
else), and at strategy end the staging directory is removed whether the
run completed or aborted on a fatal error; the cleanup operations modify
only the staging directory, leaving session state and the rest of the
filesystem untouched. -/
theorem C9_staging_lifecycle :
    ∀ (α : Type) (st : FullState α) (files : List SFile),
      (prepareTempDir st).temp = some [] ∧
      (prepareTempDir st).sess = st.sess ∧ (prepareTempDir st).outside = st.outside ∧
      (removeTempDir st).temp = none ∧
      (removeTempDir st).sess = st.sess ∧ (removeTempDir st).outside = st.outside ∧
      (files ≠ [] → (runStagedSession files st).1.temp = none) ∧
      (runStagedSession files st).1.outside = st.outside := by
  intro α st files
  refine ⟨rfl, rfl, rfl, rfl, rfl, rfl, ?_, ?_⟩
  · intro hne
    simp only [runStagedSession]
    rw [if_neg (by simpa using hne)]
    split
    · rfl
    · rfl
  · simp only [runStagedSession]
    by_cases hemp : files.isEmpty
    · rw [if_pos hemp]
    · rw [if_neg hemp]
      split
      · rename_i st2 heq
        have hf := (stagedLoop_frame (α := α) files
          (prepareTempDir { st with sess := { st.sess with totalRoms := 0, errors := 0 } })).1
        rw [heq] at hf
        have hb := (bulkImport_frame (α := α) st2).1
        show (removeTempDir (if 0 < st2.sess.totalRoms then bulkImport st2 else st2)).outside
          = st.outside
        by_cases hroms : 0 < st2.sess.totalRoms
        · rw [if_pos hroms]
          exact hb.trans hf
        · rw [if_neg hroms]
          exact hf
      · rename_i st2 e heq
        have hf := (stagedLoop_frame (α := α) files
          (prepareTempDir { st with sess := { st.sess with totalRoms := 0, errors := 0 } })).1
        rw [heq] at hf
        exact hf

/-- Witness for C9 at a concrete non-empty staged run over a state
carrying a stale staging directory. -/
theorem C9_staging_lifecycle_witness :
    (runStagedSession demoSFiles demoFull).1.temp = none :=
  (C9_staging_lifecycle Nat demoFull demoSFiles).2.2.2.2.2.2.1 (by decide)

/-! ### C4: the processed-files checkpoint is written only after commit -/

/-- `_flush_buffer` commits the whole buffer: the destination gains
exactly the buffered rows, the checkpoint store gains exactly their
filenames, and the buffer is emptied. -/
theorem flushBuffer_spec (st : SessState) :
    (flushBuffer st).roms = st.roms ++ st.buffer ∧
    (flushBuffer st).processed = st.processed ++ st.buffer.map Row.filename ∧
    (flushBuffer st).buffer = [] := by
  by_cases h : st.buffer.isEmpty
  · have he : st.buffer = [] := by simpa using h
    simp [flushBuffer, h, he]
  · simp [flushBuffer, insertBatch, h]

/-- The completion loop flushes at whole-file granularity: the consumed
prefix of the file list splits into a flushed part `F` and a still
buffered part `P`, and the checkpoint entries written are exactly the
filenames of the committed rows.  The left disjunct is the
no-flush-happened case. -/
theorem runFiles_split (bs : Nat) :
    ∀ (fs : List PFile) (st : SessState),
      ∃ F P R : List PFile,
        fs = (F ++ P) ++ R ∧
        (((runFiles bs st fs).1.roms = st.roms ∧
          (runFiles bs st fs).1.processed = st.processed ∧
          (runFiles bs st fs).1.buffer =
            st.buffer ++ ((F ++ P).map rowsOf).flatten ∧
          F = []) ∨
         ((runFiles bs st fs).1.roms =
            st.roms ++ st.buffer ++ ((F.map rowsOf).flatten) ∧
          (runFiles bs st fs).1.processed =
            st.processed ++ (st.buffer ++ (F.map rowsOf).flatten).map Row.filename ∧
          (runFiles bs st fs).1.buffer = ((P.map rowsOf).flatten))) ∧
        ((runFiles bs st fs).2 = none → R = []) := by
  intro fs
  induction fs with
  | nil =>
    intro st
    exact ⟨[], [], [], rfl, Or.inl ⟨rfl, rfl, by simp [runFiles], rfl⟩, fun _ => rfl⟩
  | cons f fs ih =>
    intro st
    cases hout : f.outcome with
    | skip =>
      have hrun : runFiles bs st (f :: fs) = runFiles bs st fs := by
        simp only [runFiles, stepSerial, hout]
      have hrows : rowsOf f = [] := by simp [rowsOf, hout]
      obtain ⟨F, P, R, hfs, hdisj, hR⟩ := ih st
      rcases hdisj with ⟨h1, h2, h3, hF⟩ | ⟨h1, h2, h3⟩
      · refine ⟨[], f :: P, R, by simp [hfs, hF], Or.inl ⟨?_, ?_, ?_, rfl⟩, ?_⟩
        · rw [hrun]; exact h1
        · rw [hrun]; exact h2
        · rw [hrun, h3, hF]; simp [hrows]
        · intro h; rw [hrun] at h; exact hR h
      · refine ⟨f :: F, P, R, by simp [hfs], Or.inr ⟨?_, ?_, ?_⟩, ?_⟩
        · rw [hrun, h1]; simp [hrows]
        · rw [hrun, h2]; simp [hrows]
        · rw [hrun]; exact h3
        · intro h; rw [hrun] at h; exact hR h
    | err m =>
      have hrows : rowsOf f = [] := by simp [rowsOf, hout]
      by_cases hfat : fatalMsg m
      · have hrun : runFiles bs st (f :: fs) =
            (st, some "CRITICAL: Disk is full or not writable!") := by
          simp [runFiles, stepSerial, hout, handleError, hfat]
        refine ⟨[], [], f :: fs, rfl, Or.inl ⟨?_, ?_, ?_, rfl⟩, ?_⟩
        · rw [hrun]
        · rw [hrun]
        · rw [hrun]; simp
        · intro h; rw [hrun] at h; exact Option.noConfusion h
      · have hrun : runFiles bs st (f :: fs) =
            runFiles bs { st with errors := st.errors + 1 } fs := by
          simp [runFiles, stepSerial, hout, handleError, hfat]
        obtain ⟨F, P, R, hfs, hdisj, hR⟩ := ih { st with errors := st.errors + 1 }
        rcases hdisj with ⟨h1, h2, h3, hF⟩ | ⟨h1, h2, h3⟩
        · refine ⟨[], f :: P, R, by simp [hfs, hF], Or.inl ⟨?_, ?_, ?_, rfl⟩, ?_⟩
          · rw [hrun]; exact h1
          · rw [hrun]; exact h2
          · rw [hrun, h3, hF]; simp [hrows]
          · intro h; rw [hrun] at h; exact hR h
        · refine ⟨f :: F, P, R, by simp [hfs], Or.inr ⟨?_, ?_, ?_⟩, ?_⟩
          · rw [hrun, h1]; simp [hrows]
          · rw [hrun, h2]; simp [hrows]
          · rw [hrun]; exact h3
          · intro h; rw [hrun] at h; exact hR h
    | ok rows =>
      have hrows : rowsOf f = rows := by simp [rowsOf, hout]
      have hrun0 : runFiles bs st (f :: fs) =
          runFiles bs (processResult bs st rows) fs := by
        simp only [runFiles, stepSerial, hout]
      by_cases hemp : rows.isEmpty
      · have he : rows = [] := by simpa using hemp
        have hpr : processResult bs st rows = st := by simp [processResult, hemp]
        rw [hpr] at hrun0
        obtain ⟨F, P, R, hfs, hdisj, hR⟩ := ih st
        rcases hdisj with ⟨h1, h2, h3, hF⟩ | ⟨h1, h2, h3⟩
        · refine ⟨[], f :: P, R, by simp [hfs, hF], Or.inl ⟨?_, ?_, ?_, rfl⟩, ?_⟩
          · rw [hrun0]; exact h1
          · rw [hrun0]; exact h2
          · rw [hrun0, h3, hF]; simp [hrows, he]
          · intro h; rw [hrun0] at h; exact hR h
        · refine ⟨f :: F, P, R, by simp [hfs], Or.inr ⟨?_, ?_, ?_⟩, ?_⟩
          · rw [hrun0, h1]; simp [hrows, he]
          · rw [hrun0, h2]; simp [hrows, he]
          · rw [hrun0]; exact h3
          · intro h; rw [hrun0] at h; exact hR h
      · by_cases hflu : bs ≤ (st.buffer ++ rows).length
        · have hpr : processResult bs st rows =
              flushBuffer { st with buffer := st.buffer ++ rows } := by
            simp only [processResult]
            rw [if_neg hemp, if_pos hflu]
          rw [hpr] at hrun0
          obtain ⟨hrS, hpS, hbS⟩ :=
            flushBuffer_spec { st with buffer := st.buffer ++ rows }
          obtain ⟨F, P, R, hfs, hdisj, hR⟩ :=
            ih (flushBuffer { st with buffer := st.buffer ++ rows })
          rcases hdisj with ⟨h1, h2, h3, hF⟩ | ⟨h1, h2, h3⟩
          · refine ⟨[f], P, R, by simp [hfs, hF], Or.inr ⟨?_, ?_, ?_⟩, ?_⟩
            · rw [hrun0, h1, hrS]; simp [hrows]
            · rw [hrun0, h2, hpS]; simp [hrows]
            · rw [hrun0, h3, hF, hbS]; simp
            · intro h; rw [hrun0] at h; exact hR h
          · refine ⟨f :: F, P, R, by simp [hfs], Or.inr ⟨?_, ?_, ?_⟩, ?_⟩
            · rw [hrun0, h1, hrS, hbS]; simp [hrows]
            · rw [hrun0, h2, hpS, hbS]; simp [hrows]
            · rw [hrun0]; exact h3
            · intro h; rw [hrun0] at h; exact hR h
        · have hpr : processResult bs st rows =
              { st with buffer := st.buffer ++ rows } := by
            simp only [processResult]
            rw [if_neg hemp, if_neg hflu]
          rw [hpr] at hrun0
          obtain ⟨F, P, R, hfs, hdisj, hR⟩ := ih { st with buffer := st.buffer ++ rows }
          rcases hdisj with ⟨h1, h2, h3, hF⟩ | ⟨h1, h2, h3⟩
          · refine ⟨[], f :: P, R, by simp [hfs, hF], Or.inl ⟨?_, ?_, ?_, rfl⟩, ?_⟩
            · rw [hrun0]; exact h1
            · rw [hrun0]; exact h2
            · rw [hrun0, h3, hF]; simp [hrows]
            · intro h; rw [hrun0] at h; exact hR h
          · refine ⟨f :: F, P, R, by simp [hfs], Or.inr ⟨?_, ?_, ?_⟩, ?_⟩
            · rw [hrun0, h1]; simp [hrows]
            · rw [hrun0, h2]; simp [hrows]
            · rw [hrun0]; exact h3
            · intro h; rw [hrun0] at h; exact hR h

/-- Over a run started with an empty buffer, the loop's checkpoint
entries are exactly the filenames of the rows committed to `roms`: both
extend by the flattened record lists of one prefix `Q` of the input. -/
theorem runFiles_decomp0 (bs : Nat) (files : List PFile) (st : SessState)
    (hbuf : st.buffer = []) :
    ∃ Q R : List PFile,
      files = Q ++ R ∧
      (runFiles bs st files).1.processed =
        st.processed ++ (((Q.map rowsOf).flatten).map Row.filename) ∧
      (runFiles bs st files).1.roms = st.roms ++ ((Q.map rowsOf).flatten) := by
  obtain ⟨F, P, R, hfs, hdisj, hR⟩ := runFiles_split bs files st
  rcases hdisj with ⟨h1, h2, h3, hF⟩ | ⟨h1, h2, h3⟩
  · exact ⟨[], files, by simp, by simp [h2], by simp [h1]⟩
  · exact ⟨F, P ++ R, by simp [hfs], by rw [h2, hbuf]; simp, by rw [h1, hbuf]; simp⟩

/-- As `runFiles_decomp0`, for the full In-Memory strategy including its
final flush. -/
theorem runInMemoryMode_decomp (bs : Nat) (files : List PFile) (st : SessState)
    (hbuf : st.buffer = []) :
    ∃ Q R : List PFile,
      files = Q ++ R ∧
      (runInMemoryMode bs st files).1.processed =
        st.processed ++ (((Q.map rowsOf).flatten).map Row.filename) ∧
      (runInMemoryMode bs st files).1.roms = st.roms ++ ((Q.map rowsOf).flatten) := by
  obtain ⟨F, P, R, hfs, hdisj, hR⟩ := runFiles_split bs files st
  cases hres : runFiles bs st files with
  | mk st2 e =>
    have hprj : (runFiles bs st files).1 = st2 := by rw [hres]
    rw [hprj] at hdisj
    rw [hres] at hR
    cases e with
    | none =>
      have hmode : (runInMemoryMode bs st files).1 = flushBuffer st2 := by
        unfold runInMemoryMode
        rw [hres]
      obtain ⟨hrS, hpS, hbS⟩ := flushBuffer_spec st2
      rcases hdisj with ⟨h1, h2, h3, hF⟩ | ⟨h1, h2, h3⟩
      · refine ⟨F ++ P, R, hfs, ?_, ?_⟩
        · rw [hmode, hpS, h2, h3, hbuf]; simp
        · rw [hmode, hrS, h1, h3, hbuf]; simp
      · refine ⟨F ++ P, R, hfs, ?_, ?_⟩
        · rw [hmode, hpS, h2, h3, hbuf]; simp
        · rw [hmode, hrS, h1, h3, hbuf]; simp
    | some e2 =>
      have hmode : (runInMemoryMode bs st files).1 = st2 := by
        unfold runInMemoryMode
        rw [hres]
      rcases hdisj with ⟨h1, h2, h3, hF⟩ | ⟨h1, h2, h3⟩
      · exact ⟨[], files, by simp, by rw [hmode, h2]; simp, by rw [hmode, h1]; simp⟩
      · exact ⟨F, P ++ R, by simp [hfs], by rw [hmode, h2, hbuf]; simp,
          by rw [hmode, h1, hbuf]; simp⟩

/-- A filename can occur among committed-row filenames only through the
unique input file bearing that name, and only if that file actually
produced records. -/
theorem processedOnly_aux (Q files : List PFile) (f : PFile)
    (hQ : ∀ g ∈ Q, g ∈ files)
    (hdisc : ∀ g ∈ files, ∀ r ∈ rowsOf g, r.filename = g.name)
    (hnodup : (files.map PFile.name).Nodup)
    (hf : f ∈ files)
    (hmem : f.name ∈ ((Q.map rowsOf).flatten).map Row.filename) :
    f ∈ Q ∧ rowsOf f ≠ [] := by
  obtain ⟨r, hr, hfn⟩ := List.mem_map.mp hmem
  obtain ⟨l, hl, hrl⟩ := List.mem_flatten.mp hr
  obtain ⟨g, hg, hgl⟩ := List.mem_map.mp hl
  rw [← hgl] at hrl
  have hname : g.name = f.name := by
    rw [← hfn]
    exact (hdisc g (hQ g hg) r hrl).symm
  have hgf : g = f := List.inj_on_of_nodup_map hnodup (hQ g hg) hf hname
  rw [hgf] at hg hrl
  exact ⟨hg, List.ne_nil_of_mem hrl⟩

/-- The Staged strategy never writes to the processed-files store. -/
theorem runStagedSession_processed {α : Type} (files : List SFile) (st : FullState α) :
    (runStagedSession files st).1.sess.processed = st.sess.processed := by
  simp only [runStagedSession]
  by_cases hemp : files.isEmpty
  · rw [if_pos hemp]
  · rw [if_neg hemp]
    split
    · rename_i st2 heq
      have hf := (stagedLoop_frame (α := α) files
        (prepareTempDir { st with sess := { st.sess with totalRoms := 0, errors := 0 } })).2.1
      rw [heq] at hf
      show (if 0 < st2.sess.totalRoms then bulkImport st2 else st2).sess.processed
        = st.sess.processed
      by_cases hroms : 0 < st2.sess.totalRoms
      · rw [if_pos hroms]
        exact (bulkImport_frame st2).2.1.trans hf
      · rw [if_neg hroms]
        exact hf
    · rename_i st2 e heq
      have hf := (stagedLoop_frame (α := α) files
        (prepareTempDir { st with sess := { st.sess with totalRoms := 0, errors := 0 } })).2.1
      rw [heq] at hf
      exact hf

/-- The Direct strategy never writes to the processed-files store. -/
theorem directLoop_processed :
    ∀ (fs : List DFile) (st : SessState),
      (directLoop st fs).1.processed = st.processed := by
  intro fs
  induction fs with
  | nil => intro st; rfl
  | cons f fs ih =>
    intro st
    cases hfe : f.err with
    | none =>
      simp only [directLoop, hfe]
      exact ih _
    | some m =>
      simp only [directLoop, hfe]
      split
      · rename_i s2 heq
        unfold handleError at heq
        split at heq
        · exact Except.noConfusion heq
        · injection heq with h
          subst h
          exact ih _
      · rfl

/-- C4: a filename gains an entry in the processed-files checkpoint
store only after all of that file's records are committed to the
destination.  In the In-Memory strategy this holds at every point of the
completion loop (every prefix of the file list) and at the final flushed
state; a file whose import failed is never marked, remaining eligible
for reprocessing.  The Staged and Direct strategies never write to the
store at all, which satisfies the only-after discipline vacuously.
Stated for runs whose files bear pairwise distinct names, with each
record carrying its own file's name (as the code keys the store). -/
theorem C4_checkpoint_after_commit :
    ∀ (bs : Nat) (st0 : SessState) (files : List PFile) (f : PFile) (n : Nat),
      st0.buffer = [] →
      (∀ g ∈ files, ∀ r ∈ rowsOf g, r.filename = g.name) →
      (files.map PFile.name).Nodup →
      f ∈ files →
      f.name ∉ st0.processed →
      ((f.name ∈ (runFiles bs st0 (files.take n)).1.processed →
          List.Sublist (rowsOf f) (runFiles bs st0 (files.take n)).1.roms) ∧
       (f.name ∈ (runInMemoryMode bs st0 files).1.processed →
          List.Sublist (rowsOf f) (runInMemoryMode bs st0 files).1.roms) ∧
       (∀ m, f.outcome = .err m →
          f.name ∉ (runInMemoryMode bs st0 files).1.processed) ∧
       (∀ (α : Type) (stf : FullState α) (sfiles : List SFile),
          (runStagedSession sfiles stf).1.sess.processed = stf.sess.processed) ∧
       (∀ (st1 : SessState) (dfiles : List DFile),
          (ingestDirect st1 dfiles).1.processed = st1.processed)) := by
  intro bs st0 files f n hbuf0 hdisc hnodup hf hf0
  have main : ∀ (Q : List PFile) (pr : List String) (rm : List Row),
      (∀ g ∈ Q, g ∈ files) →
      pr = st0.processed ++ (((Q.map rowsOf).flatten).map Row.filename) →
      rm = st0.roms ++ ((Q.map rowsOf).flatten) →
      f.name ∈ pr → List.Sublist (rowsOf f) rm ∧ rowsOf f ≠ [] := by
    intro Q pr rm hQ hpr hrm hmem
    rw [hpr] at hmem
    rcases List.mem_append.mp hmem with h | h
    · exact absurd h hf0
    · obtain ⟨hfQ, hne⟩ := processedOnly_aux Q files f hQ hdisc hnodup hf h
      refine ⟨?_, hne⟩
      have hsub := List.sublist_flatten_of_mem (List.mem_map_of_mem rowsOf hfQ)
      rw [hrm]
      exact hsub.trans (List.sublist_append_right _ _)
  refine ⟨?_, ?_, ?_, ?_, ?_⟩
  · obtain ⟨Q, R, hsplit, hpr, hrm⟩ := runFiles_decomp0 bs (files.take n) st0 hbuf0
    intro hmem
    have hQsub : ∀ g ∈ Q, g ∈ files := by
      intro g hg
      apply List.take_subset n files
      rw [hsplit]
      exact List.mem_append_left R hg
    exact (main Q _ _ hQsub hpr hrm hmem).1
  · obtain ⟨Q, R, hsplit, hpr, hrm⟩ := runInMemoryMode_decomp bs files st0 hbuf0
    intro hmem
    have hQsub : ∀ g ∈ Q, g ∈ files := by
      intro g hg
      rw [hsplit]
      exact List.mem_append_left R hg
    exact (main Q _ _ hQsub hpr hrm hmem).1
  · obtain ⟨Q, R, hsplit, hpr, hrm⟩ := runInMemoryMode_decomp bs files st0 hbuf0
    intro m hm hmem
    have hQsub : ∀ g ∈ Q, g ∈ files := by
      intro g hg
      rw [hsplit]
      exact List.mem_append_left R hg
    have hne := (main Q _ _ hQsub hpr hrm hmem).2
    exact hne (by simp [rowsOf, hm])
  · intro α stf sfiles
    exact runStagedSession_processed sfiles stf
  · intro st1 dfiles
    unfold ingestDirect
    by_cases hemp : dfiles.isEmpty
    · rw [if_pos hemp]
    · rw [if_neg hemp]
      exact directLoop_processed dfiles _

/-- Witness for C4 on a concrete two-file run: the successful file's
record reaches `roms` by the time it is marked, and the failed file is
never marked. -/
theorem C4_checkpoint_after_commit_witness :
    List.Sublist (rowsOf ⟨"a.dat", .ok [demoRow "a.dat"]⟩)
      (runInMemoryMode 10 emptySess demoPFiles).1.roms ∧
    "b.dat" ∉ (runInMemoryMode 10 emptySess demoPFiles).1.processed :=
  ⟨(C4_checkpoint_after_commit 10 emptySess demoPFiles
      ⟨"a.dat", .ok [demoRow "a.dat"]⟩ 2
      (by decide) (by decide) (by decide) (by decide) (by decide)).2.1 (by decide),
   (C4_checkpoint_after_commit 10 emptySess demoPFiles
      ⟨"b.dat", .err "boom"⟩ 2
      (by decide) (by decide) (by decide) (by decide) (by decide)).2.2.1 "boom" rfl⟩

/-! ### C6: generic lemmas about the CMP scanners -/

theorem class_ne {p : Char → Bool} {c d : Char} (hc : p c = true) (hd : p d = false) :
    c ≠ d := by
  intro he
  rw [he, hd] at hc
  exact Bool.noConfusion hc

theorem pyWs_cases (c : Char) (h : pyWs c = true) :
    c = ' ' ∨ c = '\t' ∨ c = '\n' ∨ c = '\r' ∨ c = Char.ofNat 11 ∨ c = Char.ofNat 12 := by
  unfold pyWs at h
  simp only [Bool.or_eq_true, decide_eq_true_eq] at h
  tauto

theorem hex_not_ws (c : Char) (h : isHexChar c = true) : pyWs c = false := by
  cases hws : pyWs c
  · rfl
  · rcases pyWs_cases c hws with h1 | h1 | h1 | h1 | h1 | h1 <;>
      (rw [h1] at h; exact absurd h (by decide))

theorem digit_not_ws (c : Char) (h : c.isDigit = true) : pyWs c = false := by
  cases hws : pyWs c
  · rfl
  · rcases pyWs_cases c hws with h1 | h1 | h1 | h1 | h1 | h1 <;>
      (rw [h1] at h; exact absurd h (by decide))

theorem isHexChar_lower (c : Char) (h : isHexChar c = true) :
    isHexChar (pyLowerChar c) = true := by
  unfold pyLowerChar
  split <;> first | exact h | decide | exact absurd h (by decide)

theorem lower_class_ne {p : Char → Bool} (hp : ∀ e, p e = true → p (pyLowerChar e) = true)
    {n c : Char} (hn : p n = false) (hc : p c = true) : n ≠ pyLowerChar c := by
  intro he
  rw [he, hp c hc] at hn
  exact Bool.noConfusion hn

theorem digit_lower_ne {n c : Char} (hn : n.isDigit = false) (hc : c.isDigit = true) :
    n ≠ pyLowerChar c :=
  lower_class_ne (fun e he => by rw [pyLowerChar_isDigit]; exact he) hn hc

theorem hex_lower_ne {n c : Char} (hn : isHexChar n = false) (hc : isHexChar c = true) :
    n ≠ pyLowerChar c :=
  lower_class_ne isHexChar_lower hn hc

theorem all_drop (p : Char → Bool) (l : List Char) (i : Nat) (h : l.all p = true) :
    (l.drop i).all p = true := by
  rw [List.all_eq_true] at h ⊢
  intro c hc
  exact h c (List.drop_subset i l hc)

theorem drop_ne_nil (l : List Char) (i : Nat) (h : i < l.length) : l.drop i ≠ [] := by
  intro he
  have h2 := List.length_drop i l
  rw [he] at h2
  simp at h2
  omega

theorem takeWhile_append_all (p : Char → Bool) (a b : List Char)
    (h : ∀ c ∈ a, p c = true) : (a ++ b).takeWhile p = a ++ b.takeWhile p := by
  induction a with
  | nil => rfl
  | cons c a2 ih =>
    have hc : p c = true := h c (List.mem_cons_self c a2)
    simp only [List.cons_append, List.takeWhile_cons, hc, if_true]
    rw [ih (fun d hd => h d (List.mem_cons_of_mem c hd))]

theorem dropWhile_append_all (p : Char → Bool) (a b : List Char)
    (h : ∀ c ∈ a, p c = true) : (a ++ b).dropWhile p = b.dropWhile p := by
  induction a with
  | nil => rfl
  | cons c a2 ih =>
    have hc : p c = true := h c (List.mem_cons_self c a2)
    simp only [List.cons_append, List.dropWhile_cons, hc, if_true]
    exact ih (fun d hd => h d (List.mem_cons_of_mem c hd))

theorem takeWhile_append_head (p : Char → Bool) (x : List Char) (d : Char) (r : List Char)
    (hd : p d = false) : (x ++ d :: r).takeWhile p = x.takeWhile p := by
  induction x with
  | nil => simp [List.takeWhile_cons, hd]
  | cons c x2 ih =>
    by_cases hc : p c
    · simp only [List.cons_append, List.takeWhile_cons, hc, if_true]
      rw [ih]
    · simp only [Bool.not_eq_true] at hc
      simp [List.takeWhile_cons, hc]

theorem takeWhile_seg (p : Char → Bool) (x : List Char) (d : Char) (r : List Char)
    (hx : ∀ c ∈ x, p c = true) (hd : p d = false) : (x ++ d :: r).takeWhile p = x := by
  rw [takeWhile_append_all p x _ hx]
  simp [List.takeWhile_cons, hd]

theorem dropWhile_seg (p : Char → Bool) (x : List Char) (d : Char) (r : List Char)
    (hx : ∀ c ∈ x, p c = true) (hd : p d = false) : (x ++ d :: r).dropWhile p = d :: r := by
  rw [dropWhile_append_all p x _ hx]
  simp [List.dropWhile_cons, hd]

theorem sci_quote : ∀ (kw x r : List Char), (∀ c ∈ kw, c ≠ '"') →
    startsWithLCi kw (x ++ '"' :: r) = startsWithLCi kw x := by
  intro kw
  induction kw with
  | nil => intro x r h; rfl
  | cons n ns ih =>
    intro x r hkw
    cases x with
    | nil =>
      have hn : n ≠ '"' := hkw n (List.mem_cons_self n ns)
      show startsWithLCi (n :: ns) ('"' :: r) = startsWithLCi (n :: ns) []
      unfold startsWithLCi
      have hlq : pyLowerChar '"' = '"' := rfl
      rw [hlq]
      simp [hn]
    | cons c x2 =>
      simp only [List.cons_append, startsWithLCi, List.append_eq]
      rw [ih x2 r (fun d hd => hkw d (List.mem_cons_of_mem n hd))]

theorem sci_le : ∀ (kw x : List Char), startsWithLCi kw x = true → kw.length ≤ x.length := by
  intro kw
  induction kw with
  | nil => intro x h; simp
  | cons n ns ih =>
    intro x h
    cases x with
    | nil => exact Bool.noConfusion h
    | cons c x2 =>
      unfold startsWithLCi at h
      rw [Bool.and_eq_true] at h
      have := ih x2 h.2
      simp only [List.length_cons]
      omega

theorem wsp_quote (x r : List Char) : wsParenLen (x ++ '"' :: r) = wsParenLen x := by
  unfold wsParenLen
  rw [takeWhile_append_head pyWs x '"' r (by decide)]
  have hle : (x.takeWhile pyWs).length ≤ x.length := (List.takeWhile_sublist pyWs).length_le
  rw [List.drop_append_of_le_length hle]
  cases hxd : x.drop (x.takeWhile pyWs).length with
  | nil => simp
  | cons e t => simp

theorem wsp_parenFree (x : List Char) (h : parenFree x = true) : wsParenLen x = none := by
  unfold wsParenLen
  cases hxd : x.drop (x.takeWhile pyWs).length with
  | nil => simp [hxd]
  | cons e t =>
    have he : e ∈ x := List.drop_subset _ x (by rw [hxd]; exact List.mem_cons_self e t)
    unfold parenFree at h
    have h2 := List.all_eq_true.mp h e he
    simp only [Bool.not_eq_eq_eq_not, Bool.not_true, Bool.or_eq_false_iff,
      decide_eq_false_iff_not] at h2
    simp [hxd, h2.1]

theorem kwo_quote (kw : List Char) (hkw : ∀ c ∈ kw, c ≠ '"') (x r : List Char) :
    kwOpenLen kw (x ++ '"' :: r) = kwOpenLen kw x := by
  unfold kwOpenLen
  rw [sci_quote kw x r hkw]
  by_cases hs : startsWithLCi kw x = true
  · rw [if_pos hs, if_pos hs]
    have hle := sci_le kw x hs
    rw [List.drop_append_of_le_length hle]
    rw [wsp_quote]
  · rw [if_neg hs, if_neg hs]

theorem kwo_parenFree (kw x : List Char) (h : parenFree x = true) : kwOpenLen kw x = none := by
  unfold kwOpenLen
  by_cases hs : startsWithLCi kw x = true
  · rw [if_pos hs]
    have h2 : parenFree (x.drop kw.length) = true := by
      unfold parenFree at h ⊢
      exact all_drop _ x _ h
    rw [wsp_parenFree _ h2]
    rfl
  · rw [if_neg hs]

theorem kwo_headNe {n c : Char} {ns rest : List Char} (h : ¬ n = pyLowerChar c) :
    kwOpenLen (n :: ns) (c :: rest) = none := by
  unfold kwOpenLen
  have hs : startsWithLCi (n :: ns) (c :: rest) = false := by
    unfold startsWithLCi
    simp [h]
  rw [hs]
  simp

theorem kwo_pos (kw cs : List Char) (L : Nat) (h : kwOpenLen kw cs = some L) : 1 ≤ L := by
  unfold kwOpenLen at h
  by_cases hs : startsWithLCi kw cs = true
  · rw [if_pos hs] at h
    unfold wsParenLen at h
    by_cases hh : ((cs.drop kw.length).drop
        ((cs.drop kw.length).takeWhile pyWs).length).head? = some '('
    · rw [if_pos hh] at h
      rw [show ∀ (a : Nat) (f : Nat → Nat), (some a).map f = some (f a) from fun a f => rfl] at h
      injection h with h2
      omega
    · rw [if_neg hh] at h
      exact Option.noConfusion h
  · rw [if_neg hs] at h
    exact Option.noConfusion h

theorem hasOpen_dropNone (kw : List Char) (hne : kw ≠ []) :
    ∀ (l : List Char), hasOpenPat kw l = false → ∀ i, kwOpenLen kw (l.drop i) = none := by
  intro l
  induction l with
  | nil =>
    intro _ i
    simp only [List.drop_nil]
    unfold kwOpenLen
    have hs : startsWithLCi kw [] = false := by
      cases kw with
      | nil => exact absurd rfl hne
      | cons a b => rfl
    rw [hs]
    simp
  | cons c l2 ih =>
    intro h i
    unfold hasOpenPat at h
    rw [Bool.or_eq_false_iff] at h
    obtain ⟨h1, h2⟩ := h
    cases i with
    | zero =>
      simp only [List.drop_zero]
      cases hk : kwOpenLen kw (c :: l2) with
      | none => rfl
      | some L => rw [hk] at h1; exact Bool.noConfusion h1
    | succ j =>
      simp only [List.drop_succ_cons]
      exact ih h2 j

theorem gameOpensF_nil (fuel : Nat) : gameOpensF fuel [] = [] := by
  cases fuel <;> rfl

theorem gameOpensF_irrel : ∀ (f1 : Nat) (cs : List Char) (f2 : Nat),
    cs.length ≤ f1 → cs.length ≤ f2 → gameOpensF f1 cs = gameOpensF f2 cs := by
  intro f1
  induction f1 with
  | zero =>
    intro cs f2 h1 h2
    have he : cs = [] := List.eq_nil_of_length_eq_zero (Nat.le_zero.mp h1)
    rw [he, gameOpensF_nil, gameOpensF_nil]
  | succ n ih =>
    intro cs f2 h1 h2
    cases cs with
    | nil => rw [gameOpensF_nil, gameOpensF_nil]
    | cons c rest =>
      cases f2 with
      | zero => simp at h2
      | succ m =>
        simp only [gameOpensF]
        simp only [List.length_cons] at h1 h2
        cases hk : gameOpenLen (c :: rest) with
        | none => exact ih rest m (by omega) (by omega)
        | some L =>
          have hL := kwo_pos "game".toList (c :: rest) L hk
          have hlen : ((c :: rest).drop L).length ≤ n := by
            rw [List.length_drop]
            simp only [List.length_cons]
            omega
          have hlen2 : ((c :: rest).drop L).length ≤ m := by
            rw [List.length_drop]
            simp only [List.length_cons]
            omega
          show (c :: rest).drop L :: gameOpensF n ((c :: rest).drop L) =
            (c :: rest).drop L :: gameOpensF m ((c :: rest).drop L)
          rw [ih ((c :: rest).drop L) m hlen hlen2]

theorem gameOpens_cons_none {c : Char} {rest : List Char}
    (h : gameOpenLen (c :: rest) = none) :
    gameOpens (c :: rest) = gameOpens rest := by
  unfold gameOpens
  simp only [List.length_cons, gameOpensF]
  rw [h]

theorem gameOpens_cons_some {c : Char} {rest : List Char} {L : Nat}
    (h : gameOpenLen (c :: rest) = some L) :
    gameOpens (c :: rest) = (c :: rest).drop L :: gameOpens ((c :: rest).drop L) := by
  have hL := kwo_pos "game".toList (c :: rest) L h
  unfold gameOpens
  simp only [List.length_cons, gameOpensF]
  rw [h]
  show (c :: rest).drop L :: gameOpensF rest.length ((c :: rest).drop L) = _
  congr 1
  apply gameOpensF_irrel
  · rw [List.length_drop]
    simp only [List.length_cons]
    omega
  · exact Nat.le_refl _

theorem gameOpens_skip : ∀ (seg rest : List Char),
    (∀ i, i < seg.length → gameOpenLen (seg.drop i ++ rest) = none) →
    gameOpens (seg ++ rest) = gameOpens rest := by
  intro seg
  induction seg with
  | nil => intro rest _; rfl
  | cons c seg2 ih =>
    intro rest h
    have h0 := h 0 (by simp)
    simp only [List.drop_zero] at h0
    have h0b : gameOpenLen (c :: (seg2 ++ rest)) = none := h0
    rw [List.cons_append, gameOpens_cons_none h0b]
    exact ih rest (fun i hi => by
      have h3 := h (i + 1) (by simp only [List.length_cons]; omega)
      simpa using h3)

theorem splitParen_len {l : List Char} {p : List Char × List Char}
    (h : splitAtParenClose l = some p) : p.2.length < l.length := by
  unfold splitAtParenClose at h
  cases hd : l.dropWhile (· ≠ ')') with
  | nil =>
    rw [hd] at h
    exact Option.noConfusion h
  | cons e t =>
    rw [hd] at h
    injection h with h2
    rw [← h2]
    show t.length < l.length
    have hsub : (l.dropWhile (· ≠ ')')).length ≤ l.length :=
      (List.dropWhile_sublist _).length_le
    rw [hd] at hsub
    simp only [List.length_cons] at hsub
    omega

theorem romFindAllF_nil (fuel : Nat) : romFindAllF fuel [] = [] := by
  cases fuel <;> rfl

theorem romFindAllF_irrel : ∀ (f1 : Nat) (cs : List Char) (f2 : Nat),
    cs.length ≤ f1 → cs.length ≤ f2 → romFindAllF f1 cs = romFindAllF f2 cs := by
  intro f1
  induction f1 with
  | zero =>
    intro cs f2 h1 h2
    have he : cs = [] := List.eq_nil_of_length_eq_zero (Nat.le_zero.mp h1)
    rw [he, romFindAllF_nil, romFindAllF_nil]
  | succ n ih =>
    intro cs f2 h1 h2
    cases cs with
    | nil => rw [romFindAllF_nil, romFindAllF_nil]
    | cons c rest =>
      cases f2 with
      | zero => simp at h2
      | succ m =>
        simp only [romFindAllF]
        simp only [List.length_cons] at h1 h2
        cases hk : romOpenLen (c :: rest) with
        | none => exact ih rest m (by omega) (by omega)
        | some L =>
          have hL := kwo_pos "rom".toList (c :: rest) L hk
          show (match splitAtParenClose ((c :: rest).drop L) with
                | some p => pyStripL p.1 :: romFindAllF n p.2
                | none => []) =
              (match splitAtParenClose ((c :: rest).drop L) with
                | some p => pyStripL p.1 :: romFindAllF m p.2
                | none => [])
          cases hsp : splitAtParenClose ((c :: rest).drop L) with
          | none => rfl
          | some p =>
            have hp2 := splitParen_len hsp
            rw [List.length_drop] at hp2
            simp only [List.length_cons] at hp2
            show pyStripL p.1 :: romFindAllF n p.2 = pyStripL p.1 :: romFindAllF m p.2
            rw [ih p.2 m (by omega) (by omega)]

theorem romFindAll_cons_none {c : Char} {rest : List Char}
    (h : romOpenLen (c :: rest) = none) :
    romFindAll (c :: rest) = romFindAll rest := by
  unfold romFindAll
  simp only [List.length_cons, romFindAllF]
  rw [h]

theorem romFindAll_cons_some {c : Char} {rest : List Char} {L : Nat}
    {p : List Char × List Char}
    (h : romOpenLen (c :: rest) = some L)
    (hsp : splitAtParenClose ((c :: rest).drop L) = some p) :
    romFindAll (c :: rest) = pyStripL p.1 :: romFindAll p.2 := by
  have hL := kwo_pos "rom".toList (c :: rest) L h
  have hp2 := splitParen_len hsp
  rw [List.length_drop] at hp2
  simp only [List.length_cons] at hp2
  unfold romFindAll
  simp only [List.length_cons, romFindAllF]
  rw [h]
  show (match splitAtParenClose ((c :: rest).drop L) with
        | some p => pyStripL p.1 :: romFindAllF rest.length p.2
        | none => []) = _
  rw [hsp]
  show pyStripL p.1 :: romFindAllF rest.length p.2 = _
  congr 1
  apply romFindAllF_irrel
  · omega
  · exact Nat.le_refl _

theorem romFindAll_skip : ∀ (seg rest : List Char),
    (∀ i, i < seg.length → romOpenLen (seg.drop i ++ rest) = none) →
    romFindAll (seg ++ rest) = romFindAll rest := by
  intro seg
  induction seg with
  | nil => intro rest _; rfl
  | cons c seg2 ih =>
    intro rest h
    have h0 := h 0 (by simp)
    simp only [List.drop_zero] at h0
    have h0b : romOpenLen (c :: (seg2 ++ rest)) = none := h0
    rw [List.cons_append, romFindAll_cons_none h0b]
    exact ih rest (fun i hi => by
      have h3 := h (i + 1) (by simp only [List.length_cons]; omega)
      simpa using h3)

theorem searchKwQuoted_skip (kw : List Char) : ∀ (seg rest : List Char),
    (∀ i, i < seg.length → matchKwQuoted kw (seg.drop i ++ rest) = none) →
    searchKwQuoted kw (seg ++ rest) = searchKwQuoted kw rest := by
  intro seg
  induction seg with
  | nil => intro rest _; rfl
  | cons c seg2 ih =>
    intro rest h
    have h0 := h 0 (by simp)
    simp only [List.drop_zero] at h0
    have h0b : matchKwQuoted kw (c :: (seg2 ++ rest)) = none := h0
    have hstep : searchKwQuoted kw (c :: (seg2 ++ rest)) = searchKwQuoted kw (seg2 ++ rest) := by
      conv_lhs => rw [searchKwQuoted, h0b]
    rw [List.cons_append, hstep]
    exact ih rest (fun i hi => by
      have h3 := h (i + 1) (by simp only [List.length_cons]; omega)
      simpa using h3)

theorem searchKwRun_skip (kw : List Char) (good : Char → Bool) : ∀ (seg rest : List Char),
    (∀ i, i < seg.length → matchKwRun kw good (seg.drop i ++ rest) = none) →
    searchKwRun kw good (seg ++ rest) = searchKwRun kw good rest := by
  intro seg
  induction seg with
  | nil => intro rest _; rfl
  | cons c seg2 ih =>
    intro rest h
    have h0 := h 0 (by simp)
    simp only [List.drop_zero] at h0
    have h0b : matchKwRun kw good (c :: (seg2 ++ rest)) = none := h0
    have hstep : searchKwRun kw good (c :: (seg2 ++ rest)) =
        searchKwRun kw good (seg2 ++ rest) := by
      conv_lhs => rw [searchKwRun, h0b]
    rw [List.cons_append, hstep]
    exact ih rest (fun i hi => by
      have h3 := h (i + 1) (by simp only [List.length_cons]; omega)
      simpa using h3)

theorem matchKwQuoted_headNe {n c : Char} {ns rest : List Char} (h : ¬ n = pyLowerChar c) :
    matchKwQuoted (n :: ns) (c :: rest) = none := by
  unfold matchKwQuoted
  have hs : startsWithLCi (n :: ns) (c :: rest) = false := by
    unfold startsWithLCi
    simp [h]
  rw [hs]
  simp

theorem matchKwRun_headNe (good : Char → Bool) {n c : Char} {ns rest : List Char}
    (h : ¬ n = pyLowerChar c) :
    matchKwRun (n :: ns) good (c :: rest) = none := by
  unfold matchKwRun
  have hs : startsWithLCi (n :: ns) (c :: rest) = false := by
    unfold startsWithLCi
    simp [h]
  rw [hs]
  simp

theorem takeWhile_all (p : Char → Bool) (x : List Char) (h : ∀ c ∈ x, p c = true) :
    x.takeWhile p = x := by
  have h2 := takeWhile_append_all p x [] h
  simpa using h2

theorem matchKwRun_noWsQuote (kw : List Char) (good : Char → Bool) (s r : List Char)
    (hkw : ∀ c ∈ kw, c ≠ '"') (hs : noWsL s = true) :
    matchKwRun kw good (s ++ '"' :: r) = none := by
  simp only [matchKwRun]
  rw [sci_quote kw s r hkw]
  by_cases hsw : startsWithLCi kw s = true
  · rw [if_pos hsw]
    have hle := sci_le kw s hsw
    rw [List.drop_append_of_le_length hle]
    have hall : ∀ c ∈ s.drop kw.length, pyWs c = false := by
      intro c hc
      have h2 := List.all_eq_true.mp hs c (List.drop_subset _ s hc)
      simpa using h2
    have ht : (s.drop kw.length ++ '"' :: r).takeWhile pyWs = [] := by
      cases hd : s.drop kw.length with
      | nil =>
        rw [List.nil_append, List.takeWhile_cons, if_neg (by decide)]
      | cons e t =>
        have he : pyWs e = false := hall e (by rw [hd]; exact List.mem_cons_self e t)
        rw [List.cons_append, List.takeWhile_cons, if_neg (by simp [he])]
    rw [ht]
    rw [if_pos (by decide : ([] : List Char).length = 0)]
  · rw [if_neg hsw]

theorem matchKwRun_at (kw : List Char) (good : Char → Bool) (cs g rest2 : List Char)
    (hs : startsWithLCi kw cs = true)
    (hdrop : cs.drop kw.length = ' ' :: (g ++ rest2))
    (hg : ∀ c ∈ g, pyWs c = false ∧ good c = true)
    (hgne : g ≠ [])
    (hrest : rest2 = [] ∨ ∃ e rest3, rest2 = e :: rest3 ∧ good e = false) :
    matchKwRun kw good cs = some g := by
  simp only [matchKwRun]
  rw [if_pos hs, hdrop]
  obtain ⟨d, g2, rfl⟩ := List.exists_cons_of_ne_nil hgne
  have hd := hg d (List.mem_cons_self d g2)
  have hw : (' ' :: ((d :: g2) ++ rest2)).takeWhile pyWs = [' '] := by
    rw [List.takeWhile_cons, if_pos (by decide)]
    rw [List.cons_append, List.takeWhile_cons, if_neg (by simp [hd.1])]
  rw [hw]
  rw [if_neg (by decide : ¬ ([' '] : List Char).length = 0)]
  have hd1 : (' ' :: ((d :: g2) ++ rest2)).drop ([' '] : List Char).length
      = (d :: g2) ++ rest2 := rfl
  rw [hd1]
  have hcap : ((d :: g2) ++ rest2).takeWhile good = d :: g2 := by
    rcases hrest with h0 | ⟨e, rest3, he, hge⟩
    · rw [h0, List.append_nil]
      exact takeWhile_all good (d :: g2) (fun c hc => (hg c hc).2)
    · rw [he]
      exact takeWhile_seg good (d :: g2) e rest3 (fun c hc => (hg c hc).2) hge
  rw [hcap]
  rw [if_neg (by simp)]

theorem matchKwQuoted_at (kw cs g X : List Char)
    (hs : startsWithLCi kw cs = true)
    (hdrop : cs.drop kw.length = ' ' :: '"' :: (g ++ '"' :: X))
    (hg : ∀ c ∈ g, (!(c = '"' || c = '\n')) = true) :
    matchKwQuoted kw cs = some g := by
  simp only [matchKwQuoted]
  rw [if_pos hs, hdrop]
  have hw : (' ' :: '"' :: (g ++ '"' :: X)).takeWhile pyWs = [' '] := rfl
  rw [hw]
  rw [if_neg (by decide : ¬ ([' '] : List Char).length = 0)]
  have hd1 : (' ' :: '"' :: (g ++ '"' :: X)).drop ([' '] : List Char).length
      = '"' :: (g ++ '"' :: X) := rfl
  rw [hd1]
  rw [if_pos (show ('"' :: (g ++ '"' :: X)).head? = some '"' from rfl)]
  have ht : ('"' :: (g ++ '"' :: X)).tail = g ++ '"' :: X := rfl
  rw [ht]
  rw [takeWhile_seg _ g '"' X hg (by decide)]
  rw [List.drop_left]
  rw [if_pos (show ('"' :: X).head? = some '"' from rfl)]

theorem searchKwQuoted_cons_found {kw : List Char} {c : Char} {rest g : List Char}
    (h : matchKwQuoted kw (c :: rest) = some g) :
    searchKwQuoted kw (c :: rest) = some g := by
  conv_lhs => rw [searchKwQuoted, h]

theorem searchKwRun_cons_found {kw : List Char} {good : Char → Bool} {c : Char}
    {rest g : List Char} (h : matchKwRun kw good (c :: rest) = some g) :
    searchKwRun kw good (c :: rest) = some g := by
  conv_lhs => rw [searchKwRun, h]

theorem dyckRun_parenFree (l : List Char) (h : parenFree l = true) :
    ∀ d, dyckRun l d = some d := by
  induction l with
  | nil => intro d; rfl
  | cons c l2 ih =>
    intro d
    unfold parenFree at h
    rw [List.all_cons, Bool.and_eq_true] at h
    obtain ⟨h1, h2⟩ := h
    simp only [Bool.not_eq_eq_eq_not, Bool.not_true, Bool.or_eq_false_iff,
      decide_eq_false_iff_not] at h1
    unfold dyckRun
    rw [if_neg h1.1, if_neg h1.2]
    exact ih h2 d

theorem bracketScan_through : ∀ (body : List Char) (d r : Nat) (tail : List Char),
    dyckRun body d = some r →
    bracketScan (body ++ tail) (d + 1) = (bracketScan tail (r + 1)).map (body ++ ·) := by
  intro body
  induction body with
  | nil =>
    intro d r tail h
    injection h with h2
    subst h2
    simp only [List.nil_append]
    cases bracketScan tail (d + 1) <;> simp
  | cons c body2 ih =>
    intro d r tail h
    unfold dyckRun at h
    by_cases hc1 : c = '('
    · rw [if_pos hc1] at h
      subst hc1
      rw [List.cons_append]
      simp only [bracketScan]
      rw [if_pos trivial]
      have hih := ih (d + 1) r tail h
      rw [show d + 1 + 1 = d + 2 from rfl] at hih
      rw [hih]
      cases bracketScan tail (r + 1) <;> simp
    · rw [if_neg hc1] at h
      by_cases hc2 : c = ')'
      · rw [if_pos hc2] at h
        subst hc2
        cases d with
        | zero => exact Option.noConfusion h
        | succ d2 =>
          rw [List.cons_append]
          simp only [bracketScan]
          rw [if_pos trivial]
          rw [ih d2 r tail h]
          cases bracketScan tail (r + 1) <;> simp
      · rw [if_neg hc2] at h
        rw [List.cons_append]
        simp only [bracketScan]
        rw [if_neg hc1, if_neg hc2]
        rw [ih d r tail h]
        cases bracketScan tail (r + 1) <;> simp

theorem pyStripL_wrap (a b : List Char) (c d : Char) (w : List Char)
    (ha : ∀ e ∈ a, pyWs e = true) (hb : ∀ e ∈ b, pyWs e = true)
    (hc : pyWs c = false) (hd : pyWs d = false) :
    pyStripL (a ++ (c :: (w ++ [d])) ++ b) = c :: (w ++ [d]) := by
  unfold pyStripL
  rw [List.append_assoc]
  rw [dropWhile_append_all pyWs a _ ha]
  rw [List.cons_append]
  rw [List.dropWhile_cons, if_neg (by simp [hc])]
  simp only [List.reverse_cons, List.reverse_append, List.reverse_nil, List.nil_append,
    List.append_assoc, List.singleton_append]
  rw [dropWhile_append_all pyWs b.reverse _ (fun e he => hb e (List.mem_reverse.mp he))]
  rw [List.cons_append, List.dropWhile_cons, if_neg (by simp [hd])]
  simp

theorem gameOpens_skip_class (p : Char → Bool)
    (hmis : ∀ c, p c = true → ¬ ('g' = pyLowerChar c))
    (seg X : List Char) (hseg : seg.all p = true) :
    gameOpens (seg ++ X) = gameOpens X := by
  apply gameOpens_skip
  intro i hi
  cases hd : seg.drop i with
  | nil => exact absurd hd (drop_ne_nil seg i hi)
  | cons e t =>
    have he : e ∈ seg := List.drop_subset i seg (by rw [hd]; exact List.mem_cons_self e t)
    have hp := List.all_eq_true.mp hseg e he
    rw [List.cons_append]
    exact kwo_headNe (hmis e hp)

theorem romFindAll_skip_class (p : Char → Bool)
    (hmis : ∀ c, p c = true → ¬ ('r' = pyLowerChar c))
    (seg X : List Char) (hseg : seg.all p = true) :
    romFindAll (seg ++ X) = romFindAll X := by
  apply romFindAll_skip
  intro i hi
  cases hd : seg.drop i with
  | nil => exact absurd hd (drop_ne_nil seg i hi)
  | cons e t =>
    have he : e ∈ seg := List.drop_subset i seg (by rw [hd]; exact List.mem_cons_self e t)
    have hp := List.all_eq_true.mp hseg e he
    rw [List.cons_append]
    exact kwo_headNe (hmis e hp)

theorem gameOpens_skip_quoted (seg r : List Char)
    (hno : ∀ i, kwOpenLen "game".toList (seg.drop i) = none) :
    gameOpens (seg ++ '"' :: r) = gameOpens ('"' :: r) := by
  apply gameOpens_skip
  intro i hi
  show kwOpenLen "game".toList (seg.drop i ++ '"' :: r) = none
  rw [kwo_quote "game".toList (by decide) (seg.drop i) r]
  exact hno i

theorem romFindAll_skip_quoted (seg r : List Char)
    (hno : ∀ i, kwOpenLen "rom".toList (seg.drop i) = none) :
    romFindAll (seg ++ '"' :: r) = romFindAll ('"' :: r) := by
  apply romFindAll_skip
  intro i hi
  show kwOpenLen "rom".toList (seg.drop i ++ '"' :: r) = none
  rw [kwo_quote "rom".toList (by decide) (seg.drop i) r]
  exact hno i

theorem parenFree_dropNone (kw seg : List Char) (h : parenFree seg = true) :
    ∀ i, kwOpenLen kw (seg.drop i) = none := by
  intro i
  apply kwo_parenFree
  unfold parenFree at h ⊢
  exact all_drop _ seg i h

theorem searchKwRun_skip_seg (n : Char) (ns : List Char) (good : Char → Bool)
    (p : Char → Bool) (hmis : ∀ c, p c = true → ¬ (n = pyLowerChar c))
    (seg X : List Char) (hseg : seg.all p = true) :
    searchKwRun (n :: ns) good (seg ++ X) = searchKwRun (n :: ns) good X := by
  apply searchKwRun_skip
  intro i hi
  cases hd : seg.drop i with
  | nil => exact absurd hd (drop_ne_nil seg i hi)
  | cons e t =>
    have he : e ∈ seg := List.drop_subset i seg (by rw [hd]; exact List.mem_cons_self e t)
    have hp := List.all_eq_true.mp hseg e he
    rw [List.cons_append]
    exact matchKwRun_headNe good (hmis e hp)

theorem searchKwRun_skip_noWsSeg (n : Char) (ns : List Char) (good : Char → Bool)
    (seg r : List Char) (hkw : ∀ c ∈ (n :: ns), c ≠ '"') (hseg : noWsL seg = true) :
    searchKwRun (n :: ns) good (seg ++ '"' :: r) =
      searchKwRun (n :: ns) good ('"' :: r) := by
  apply searchKwRun_skip
  intro i hi
  have hsub : noWsL (seg.drop i) = true := by
    unfold noWsL at hseg ⊢
    exact all_drop _ seg i hseg
  exact matchKwRun_noWsQuote (n :: ns) good (seg.drop i) r hkw hsub

theorem parenFree_of_digits (l : List Char) (h : l.all Char.isDigit = true) :
    parenFree l = true := by
  unfold parenFree
  rw [List.all_eq_true]
  intro c hc
  have hd := List.all_eq_true.mp h c hc
  simp only [Bool.not_eq_eq_eq_not, Bool.not_true, Bool.or_eq_false_iff,
    decide_eq_false_iff_not]
  exact ⟨class_ne hd (by decide), class_ne hd (by decide)⟩

theorem parenFree_of_hex (l : List Char) (h : l.all isHexChar = true) :
    parenFree l = true := by
  unfold parenFree
  rw [List.all_eq_true]
  intro c hc
  have hd := List.all_eq_true.mp h c hc
  simp only [Bool.not_eq_eq_eq_not, Bool.not_true, Bool.or_eq_false_iff,
    decide_eq_false_iff_not]
  exact ⟨class_ne hd (by decide), class_ne hd (by decide)⟩

theorem wf_parts (g : GameDesc) (hg : wfGameDesc g = true) :
    noQuoteNoNL g.gname = true ∧ dyckRun g.gname 0 = some 0 ∧
    hasOpenPat "game".toList g.gname = false ∧ hasOpenPat "rom".toList g.gname = false ∧
    noQuoteNoNL g.rname = true ∧ parenFree g.rname = true ∧ noWsL g.rname = true ∧
    g.sizeDigits.all Char.isDigit = true ∧ g.sizeDigits ≠ [] ∧
    g.crc.all isHexChar = true ∧ g.crc ≠ [] := by
  unfold wfGameDesc at hg
  simp only [Bool.and_eq_true, beq_iff_eq, Bool.not_eq_true',
    List.isEmpty_eq_false_iff_exists_mem, List.isEmpty_iff] at hg
  obtain ⟨⟨⟨⟨⟨⟨⟨⟨⟨⟨h1, h2⟩, h3⟩, h4⟩, h5⟩, h6⟩, h7⟩, h8⟩, h9⟩, h10⟩, h11⟩ := hg
  refine ⟨h1, h2, h3, h4, h5, h6, h7, h8, ?_, h10, ?_⟩
  · obtain ⟨x, hx⟩ := h9
    exact List.ne_nil_of_mem hx
  · obtain ⟨x, hx⟩ := h11
    exact List.ne_nil_of_mem hx

theorem gameSkip_nameLit (X : List Char) :
    gameOpens ("\n name \"".toList ++ X) = gameOpens X := by
  apply gameOpens_skip
  intro i hi
  have h8 : ("\n name \"".toList).length = 8 := rfl
  rw [h8] at hi
  interval_cases i <;> exact kwo_headNe (by decide)

theorem gameSkip_romLit (X : List Char) :
    gameOpens ("\"\n rom ( name \"".toList ++ X) = gameOpens X := by
  apply gameOpens_skip
  intro i hi
  have hlen : ("\"\n rom ( name \"".toList).length = 15 := rfl
  rw [hlen] at hi
  interval_cases i <;> exact kwo_headNe (by decide)

theorem gameSkip_sizeLit (X : List Char) :
    gameOpens ("\" size ".toList ++ X) = gameOpens X := by
  apply gameOpens_skip
  intro i hi
  have hlen : ("\" size ".toList).length = 7 := rfl
  rw [hlen] at hi
  interval_cases i <;> exact kwo_headNe (by decide)

theorem gameSkip_crcLit (X : List Char) :
    gameOpens (" crc ".toList ++ X) = gameOpens X := by
  apply gameOpens_skip
  intro i hi
  have hlen : (" crc ".toList).length = 5 := rfl
  rw [hlen] at hi
  interval_cases i <;> exact kwo_headNe (by decide)

theorem gameSkip_closeLit (X : List Char) :
    gameOpens (" )\n)".toList ++ X) = gameOpens X := by
  apply gameOpens_skip
  intro i hi
  have hlen : (" )\n)".toList).length = 4 := rfl
  rw [hlen] at hi
  interval_cases i <;> exact kwo_headNe (by decide)

theorem gameSkip_nl (X : List Char) :
    gameOpens ('\n' :: X) = gameOpens X :=
  gameOpens_cons_none (kwo_headNe (by decide))

theorem romSkip_nameLit (X : List Char) :
    romFindAll ("\n name \"".toList ++ X) = romFindAll X := by
  apply romFindAll_skip
  intro i hi
  have h8 : ("\n name \"".toList).length = 8 := rfl
  rw [h8] at hi
  interval_cases i <;> exact kwo_headNe (by decide)

theorem romSkip_preLit (X : List Char) :
    romFindAll ("\"\n ".toList ++ X) = romFindAll X := by
  apply romFindAll_skip
  intro i hi
  have h3 : ("\"\n ".toList).length = 3 := rfl
  rw [h3] at hi
  interval_cases i <;> exact kwo_headNe (by decide)

theorem nameSearch_skip2 (X : List Char) :
    searchKwQuoted "name".toList ("\n ".toList ++ X) = searchKwQuoted "name".toList X := by
  apply searchKwQuoted_skip
  intro i hi
  have h2 : ("\n ".toList).length = 2 := rfl
  rw [h2] at hi
  interval_cases i <;> exact matchKwQuoted_headNe (by decide)

theorem sizeSearch_skipNameLit (X : List Char) :
    searchKwRun "size".toList Char.isDigit ("name \"".toList ++ X) =
      searchKwRun "size".toList Char.isDigit X := by
  apply searchKwRun_skip
  intro i hi
  have h6 : ("name \"".toList).length = 6 := rfl
  rw [h6] at hi
  interval_cases i <;> exact matchKwRun_headNe Char.isDigit (by decide)

theorem sizeSearch_skipQuoteSp (X : List Char) :
    searchKwRun "size".toList Char.isDigit ('"' :: ' ' :: X) =
      searchKwRun "size".toList Char.isDigit X := by
  apply searchKwRun_skip "size".toList Char.isDigit ("\" ".toList) X
  intro i hi
  have h2 : ("\" ".toList).length = 2 := rfl
  rw [h2] at hi
  interval_cases i <;> exact matchKwRun_headNe Char.isDigit (by decide)

theorem crcSearch_skipNameLit (X : List Char) :
    searchKwRun "crc".toList isHexChar ("name \"".toList ++ X) =
      searchKwRun "crc".toList isHexChar X := by
  apply searchKwRun_skip
  intro i hi
  have h6 : ("name \"".toList).length = 6 := rfl
  rw [h6] at hi
  interval_cases i <;> exact matchKwRun_headNe isHexChar (by decide)

theorem crcSearch_skipSizeLit (X : List Char) :
    searchKwRun "crc".toList isHexChar ('"' :: ' ' :: 's' :: 'i' :: 'z' :: 'e' :: ' ' :: X) =
      searchKwRun "crc".toList isHexChar X := by
  apply searchKwRun_skip "crc".toList isHexChar ("\" size ".toList) X
  intro i hi
  have h7 : ("\" size ".toList).length = 7 := rfl
  rw [h7] at hi
  interval_cases i <;> exact matchKwRun_headNe isHexChar (by decide)

theorem crcSearch_skipSp (X : List Char) :
    searchKwRun "crc".toList isHexChar (' ' :: X) =
      searchKwRun "crc".toList isHexChar X := by
  apply searchKwRun_skip "crc".toList isHexChar ([' ']) X
  intro i hi
  have h1 : ([' '] : List Char).length = 1 := rfl
  rw [h1] at hi
  interval_cases i <;> exact matchKwRun_headNe isHexChar (by decide)

theorem cmpTail_append (g : GameDesc) (X W : List Char) :
    cmpTail g X ++ W = cmpTail g (X ++ W) := by
  simp [cmpTail, List.append_assoc]

theorem mkGame_eq (g : GameDesc) : mkGame g = "game (".toList ++ cmpTail g [] := by
  simp only [mkGame, cmpTail, List.append_assoc, List.append_nil]
  rfl

theorem mkCmpTwo_eq (g1 g2 : GameDesc) :
    mkCmpTwo g1 g2 =
      "game (".toList ++ cmpTail g1 ('\n' :: ("game (".toList ++ cmpTail g2 [])) := by
  show mkGame g1 ++ '\n' :: mkGame g2 = _
  rw [mkGame_eq g1, mkGame_eq g2]
  rw [List.append_assoc]
  rw [cmpTail_append g1 [] ('\n' :: ("game (".toList ++ cmpTail g2 []))]
  rw [List.nil_append]

theorem gameOpens_tailBlock (g : GameDesc) (hg : wfGameDesc g = true) (X : List Char) :
    gameOpens (cmpTail g X) = gameOpens X := by
  obtain ⟨hq1, hdy, hog, hor, hq2, hpf, hws, hdg, hdne, hhx, hhne⟩ := wf_parts g hg
  show gameOpens ("\n name \"".toList ++ (g.gname ++ ("\"\n rom ( name \"".toList ++
    (g.rname ++ ("\" size ".toList ++ (g.sizeDigits ++ (" crc ".toList ++ (g.crc ++
      (" )\n)".toList ++ X))))))))) = gameOpens X
  rw [gameSkip_nameLit]
  have e2 : gameOpens (g.gname ++ ("\"\n rom ( name \"".toList ++ (g.rname ++
        ("\" size ".toList ++ (g.sizeDigits ++ (" crc ".toList ++ (g.crc ++
          (" )\n)".toList ++ X)))))))) =
      gameOpens ("\"\n rom ( name \"".toList ++ (g.rname ++ ("\" size ".toList ++
        (g.sizeDigits ++ (" crc ".toList ++ (g.crc ++ (" )\n)".toList ++ X))))))) :=
    gameOpens_skip_quoted g.gname ("\n rom ( name \"".toList ++ (g.rname ++
        ("\" size ".toList ++ (g.sizeDigits ++ (" crc ".toList ++ (g.crc ++
          (" )\n)".toList ++ X)))))))
      (hasOpen_dropNone "game".toList (by decide) g.gname hog)
  rw [e2, gameSkip_romLit]
  have e3 : gameOpens (g.rname ++ ("\" size ".toList ++ (g.sizeDigits ++
        (" crc ".toList ++ (g.crc ++ (" )\n)".toList ++ X)))))) =
      gameOpens ("\" size ".toList ++ (g.sizeDigits ++ (" crc ".toList ++
        (g.crc ++ (" )\n)".toList ++ X))))) :=
    gameOpens_skip_quoted g.rname (" size ".toList ++ (g.sizeDigits ++
        (" crc ".toList ++ (g.crc ++ (" )\n)".toList ++ X)))))
      (parenFree_dropNone "game".toList g.rname hpf)
  rw [e3, gameSkip_sizeLit]
  rw [gameOpens_skip_class Char.isDigit (fun c hc => digit_lower_ne (by decide) hc)
    g.sizeDigits _ hdg]
  rw [gameSkip_crcLit]
  rw [gameOpens_skip_class isHexChar (fun c hc => hex_lower_ne (by decide) hc)
    g.crc _ hhx]
  rw [gameSkip_closeLit]

theorem gameOpens_two (g1 g2 : GameDesc) (h1 : wfGameDesc g1 = true)
    (h2 : wfGameDesc g2 = true) :
    gameOpens (mkCmpTwo g1 g2) =
      [cmpTail g1 ('\n' :: ("game (".toList ++ cmpTail g2 [])), cmpTail g2 []] := by
  rw [mkCmpTwo_eq]
  have e1 : gameOpens ("game (".toList ++ cmpTail g1 ('\n' :: ("game (".toList ++
        cmpTail g2 []))) =
      ("game (".toList ++ cmpTail g1 ('\n' :: ("game (".toList ++ cmpTail g2 []))).drop 6 ::
        gameOpens (("game (".toList ++ cmpTail g1 ('\n' :: ("game (".toList ++
          cmpTail g2 []))).drop 6) :=
    gameOpens_cons_some (rfl)
  rw [e1]
  rw [show ("game (".toList ++ cmpTail g1 ('\n' :: ("game (".toList ++
      cmpTail g2 []))).drop 6 = cmpTail g1 ('\n' :: ("game (".toList ++ cmpTail g2 []))
    from rfl]
  rw [gameOpens_tailBlock g1 h1]
  rw [gameSkip_nl]
  have e2 : gameOpens ("game (".toList ++ cmpTail g2 []) =
      ("game (".toList ++ cmpTail g2 []).drop 6 ::
        gameOpens (("game (".toList ++ cmpTail g2 []).drop 6) :=
    gameOpens_cons_some (rfl)
  rw [e2]
  rw [show ("game (".toList ++ cmpTail g2 []).drop 6 = cmpTail g2 [] from rfl]
  rw [gameOpens_tailBlock g2 h2]
  rfl

theorem bracketScan_tail (g : GameDesc) (hg : wfGameDesc g = true) (X : List Char) :
    bracketScan (cmpTail g X) 1 = some (cmpBlock g) := by
  obtain ⟨hq1, hdy, hog, hor, hq2, hpf, hws, hdg, hdne, hhx, hhne⟩ := wf_parts g hg
  show bracketScan ("\n name \"".toList ++ (g.gname ++ ("\"\n rom ( name \"".toList ++
    (g.rname ++ ("\" size ".toList ++ (g.sizeDigits ++ (" crc ".toList ++ (g.crc ++
      (" )\n)".toList ++ X))))))))) 1 = some (cmpBlock g)
  have t1 : bracketScan ("\n name \"".toList ++ (g.gname ++ ("\"\n rom ( name \"".toList ++
      (g.rname ++ ("\" size ".toList ++ (g.sizeDigits ++ (" crc ".toList ++ (g.crc ++
        (" )\n)".toList ++ X))))))))) 1 =
      (bracketScan (g.gname ++ ("\"\n rom ( name \"".toList ++ (g.rname ++
        ("\" size ".toList ++ (g.sizeDigits ++ (" crc ".toList ++ (g.crc ++
          (" )\n)".toList ++ X)))))))) 1).map ("\n name \"".toList ++ ·) :=
    bracketScan_through "\n name \"".toList 0 0 _ (by decide)
  rw [t1]
  have t2 : bracketScan (g.gname ++ ("\"\n rom ( name \"".toList ++ (g.rname ++
      ("\" size ".toList ++ (g.sizeDigits ++ (" crc ".toList ++ (g.crc ++
        (" )\n)".toList ++ X)))))))) 1 =
      (bracketScan ("\"\n rom ( name \"".toList ++ (g.rname ++ ("\" size ".toList ++
        (g.sizeDigits ++ (" crc ".toList ++ (g.crc ++ (" )\n)".toList ++ X))))))) 1).map
        (g.gname ++ ·) :=
    bracketScan_through g.gname 0 0 _ hdy
  rw [t2]
  have t3 : bracketScan ("\"\n rom ( name \"".toList ++ (g.rname ++ ("\" size ".toList ++
      (g.sizeDigits ++ (" crc ".toList ++ (g.crc ++ (" )\n)".toList ++ X))))))) 1 =
      (bracketScan (g.rname ++ ("\" size ".toList ++ (g.sizeDigits ++ (" crc ".toList ++
        (g.crc ++ (" )\n)".toList ++ X)))))) 2).map ("\"\n rom ( name \"".toList ++ ·) :=
    bracketScan_through "\"\n rom ( name \"".toList 0 1 _ (by decide)
  rw [t3]
  have t4 : bracketScan (g.rname ++ ("\" size ".toList ++ (g.sizeDigits ++
      (" crc ".toList ++ (g.crc ++ (" )\n)".toList ++ X)))))) 2 =
      (bracketScan ("\" size ".toList ++ (g.sizeDigits ++ (" crc ".toList ++
        (g.crc ++ (" )\n)".toList ++ X))))) 2).map (g.rname ++ ·) :=
    bracketScan_through g.rname 1 1 _ (dyckRun_parenFree g.rname hpf 1)
  rw [t4]
  have t5 : bracketScan ("\" size ".toList ++ (g.sizeDigits ++ (" crc ".toList ++
      (g.crc ++ (" )\n)".toList ++ X))))) 2 =
      (bracketScan (g.sizeDigits ++ (" crc ".toList ++ (g.crc ++
        (" )\n)".toList ++ X)))) 2).map ("\" size ".toList ++ ·) :=
    bracketScan_through "\" size ".toList 1 1 _ (by decide)
  rw [t5]
  have t6 : bracketScan (g.sizeDigits ++ (" crc ".toList ++ (g.crc ++
      (" )\n)".toList ++ X)))) 2 =
      (bracketScan (" crc ".toList ++ (g.crc ++ (" )\n)".toList ++ X))) 2).map
        (g.sizeDigits ++ ·) :=
    bracketScan_through g.sizeDigits 1 1 _
      (dyckRun_parenFree g.sizeDigits (parenFree_of_digits _ hdg) 1)
  rw [t6]
  have t7 : bracketScan (" crc ".toList ++ (g.crc ++ (" )\n)".toList ++ X))) 2 =
      (bracketScan (g.crc ++ (" )\n)".toList ++ X)) 2).map (" crc ".toList ++ ·) :=
    bracketScan_through " crc ".toList 1 1 _ (by decide)
  rw [t7]
  have t8 : bracketScan (g.crc ++ (" )\n)".toList ++ X)) 2 =
      (bracketScan (" )\n)".toList ++ X) 2).map (g.crc ++ ·) :=
    bracketScan_through g.crc 1 1 _
      (dyckRun_parenFree g.crc (parenFree_of_hex _ hhx) 1)
  rw [t8]
  have t9 : bracketScan (" )\n)".toList ++ X) 2 = some " )\n".toList := rfl
  rw [t9]
  rfl

theorem split_block (g : GameDesc) (hpf : parenFree g.rname = true)
    (hdg : g.sizeDigits.all Char.isDigit = true) (hhx : g.crc.all isHexChar = true) :
    splitAtParenClose (" name \"".toList ++ (g.rname ++ ("\" size ".toList ++
      (g.sizeDigits ++ (" crc ".toList ++ (g.crc ++ " )\n".toList)))))) =
      some ((" name \"".toList ++ (g.rname ++ ("\" size ".toList ++ (g.sizeDigits ++
        (" crc ".toList ++ (g.crc ++ [' '])))))), ['\n']) := by
  have hrn : ∀ c ∈ g.rname, decide (c ≠ ')') = true := by
    intro c hc
    have h2 := List.all_eq_true.mp hpf c hc
    simp only [Bool.not_eq_eq_eq_not, Bool.not_true, Bool.or_eq_false_iff,
      decide_eq_false_iff_not] at h2
    simp [h2.2]
  have hsz : ∀ c ∈ g.sizeDigits, decide (c ≠ ')') = true := by
    intro c hc
    have h2 := List.all_eq_true.mp hdg c hc
    simp [class_ne h2 (by decide : (')' : Char).isDigit = false)]
  have hcr : ∀ c ∈ g.crc, decide (c ≠ ')') = true := by
    intro c hc
    have h2 := List.all_eq_true.mp hhx c hc
    simp [class_ne h2 (by decide : isHexChar ')' = false)]
  have hTW : (" name \"".toList ++ (g.rname ++ ("\" size ".toList ++
      (g.sizeDigits ++ (" crc ".toList ++ (g.crc ++ " )\n".toList)))))).takeWhile
        (· ≠ ')') =
      " name \"".toList ++ (g.rname ++ ("\" size ".toList ++ (g.sizeDigits ++
        (" crc ".toList ++ (g.crc ++ [' ']))))) := by
    rw [takeWhile_append_all _ _ _ (by decide)]
    rw [takeWhile_append_all _ g.rname _ hrn]
    rw [takeWhile_append_all _ _ _ (by decide)]
    rw [takeWhile_append_all _ g.sizeDigits _ hsz]
    rw [takeWhile_append_all _ _ _ (by decide)]
    rw [takeWhile_append_all _ g.crc _ hcr]
    rfl
  have hDW : (" name \"".toList ++ (g.rname ++ ("\" size ".toList ++
      (g.sizeDigits ++ (" crc ".toList ++ (g.crc ++ " )\n".toList)))))).dropWhile
        (· ≠ ')') = ')' :: ['\n'] := by
    rw [dropWhile_append_all _ _ _ (by decide)]
    rw [dropWhile_append_all _ g.rname _ hrn]
    rw [dropWhile_append_all _ _ _ (by decide)]
    rw [dropWhile_append_all _ g.sizeDigits _ hsz]
    rw [dropWhile_append_all _ _ _ (by decide)]
    rw [dropWhile_append_all _ g.crc _ hcr]
    rfl
  unfold splitAtParenClose
  rw [hDW]
  show some ((" name \"".toList ++ (g.rname ++ ("\" size ".toList ++
      (g.sizeDigits ++ (" crc ".toList ++ (g.crc ++ " )\n".toList)))))).takeWhile
        (· ≠ ')'), ['\n']) = _
  rw [hTW]

theorem strip_block (g : GameDesc) (hhne : g.crc ≠ [])
    (hhx : g.crc.all isHexChar = true) :
    pyStripL (" name \"".toList ++ (g.rname ++ ("\" size ".toList ++ (g.sizeDigits ++
      (" crc ".toList ++ (g.crc ++ [' '])))))) = cmpRd g := by
  obtain ⟨lst, dl, hlst, hcrc⟩ : ∃ lst dl, isHexChar lst = true ∧ g.crc = dl ++ [lst] := by
    refine ⟨g.crc.getLast hhne, g.crc.dropLast, ?_,
      (List.dropLast_append_getLast hhne).symm⟩
    exact List.all_eq_true.mp hhx _ (List.getLast_mem hhne)
  rw [hcrc]
  have hshape : (" name \"".toList ++ (g.rname ++ ("\" size ".toList ++ (g.sizeDigits ++
      (" crc ".toList ++ ((dl ++ [lst]) ++ [' '])))))) =
      [' '] ++ ('n' :: (("ame \"".toList ++ (g.rname ++ ("\" size ".toList ++
        (g.sizeDigits ++ (" crc ".toList ++ dl))))) ++ [lst])) ++ [' '] := by
    simp only [List.append_assoc, List.cons_append, List.singleton_append]
    rfl
  rw [hshape]
  rw [pyStripL_wrap [' '] [' '] 'n' lst
    ("ame \"".toList ++ (g.rname ++ ("\" size ".toList ++ (g.sizeDigits ++
      (" crc ".toList ++ dl)))))
    (by decide) (by decide) (by decide) (hex_not_ws lst hlst)]
  show _ = "name \"".toList ++ (g.rname ++ ("\" size ".toList ++ (g.sizeDigits ++
    (" crc ".toList ++ g.crc))))
  rw [hcrc]
  simp only [List.append_assoc, List.cons_append, List.singleton_append]
  rfl

theorem romFindAll_block (g : GameDesc) (hg : wfGameDesc g = true) :
    romFindAll (cmpBlock g) = [cmpRd g] := by
  obtain ⟨hq1, hdy, hog, hor, hq2, hpf, hws, hdg, hdne, hhx, hhne⟩ := wf_parts g hg
  show romFindAll ("\n name \"".toList ++ (g.gname ++ ("\"\n rom ( name \"".toList ++
    (g.rname ++ ("\" size ".toList ++ (g.sizeDigits ++ (" crc ".toList ++ (g.crc ++
      " )\n".toList)))))))) = [cmpRd g]
  rw [romSkip_nameLit]
  have e2 : romFindAll (g.gname ++ ("\"\n rom ( name \"".toList ++ (g.rname ++
        ("\" size ".toList ++ (g.sizeDigits ++ (" crc ".toList ++ (g.crc ++
          " )\n".toList))))))) =
      romFindAll ("\"\n rom ( name \"".toList ++ (g.rname ++ ("\" size ".toList ++
        (g.sizeDigits ++ (" crc ".toList ++ (g.crc ++ " )\n".toList)))))) :=
    romFindAll_skip_quoted g.gname ("\n rom ( name \"".toList ++ (g.rname ++
        ("\" size ".toList ++ (g.sizeDigits ++ (" crc ".toList ++ (g.crc ++
          " )\n".toList))))))
      (hasOpen_dropNone "rom".toList (by decide) g.gname hor)
  rw [e2]
  have e3 : romFindAll ("\"\n rom ( name \"".toList ++ (g.rname ++ ("\" size ".toList ++
        (g.sizeDigits ++ (" crc ".toList ++ (g.crc ++ " )\n".toList)))))) =
      romFindAll ("rom ( name \"".toList ++ (g.rname ++ ("\" size ".toList ++
        (g.sizeDigits ++ (" crc ".toList ++ (g.crc ++ " )\n".toList)))))) :=
    romSkip_preLit ("rom ( name \"".toList ++ (g.rname ++ ("\" size ".toList ++
      (g.sizeDigits ++ (" crc ".toList ++ (g.crc ++ " )\n".toList))))))
  rw [e3]
  have hopen : romOpenLen ("rom ( name \"".toList ++ (g.rname ++ ("\" size ".toList ++
      (g.sizeDigits ++ (" crc ".toList ++ (g.crc ++ " )\n".toList)))))) = some 5 := rfl
  have hsp : splitAtParenClose (("rom ( name \"".toList ++ (g.rname ++
      ("\" size ".toList ++ (g.sizeDigits ++ (" crc ".toList ++ (g.crc ++
        " )\n".toList)))))).drop 5) =
      some ((" name \"".toList ++ (g.rname ++ ("\" size ".toList ++ (g.sizeDigits ++
        (" crc ".toList ++ (g.crc ++ [' '])))))), ['\n']) :=
    split_block g hpf hdg hhx
  have e4 : romFindAll ("rom ( name \"".toList ++ (g.rname ++ ("\" size ".toList ++
        (g.sizeDigits ++ (" crc ".toList ++ (g.crc ++ " )\n".toList)))))) =
      pyStripL (" name \"".toList ++ (g.rname ++ ("\" size ".toList ++ (g.sizeDigits ++
        (" crc ".toList ++ (g.crc ++ [' '])))))) :: romFindAll ['\n'] :=
    romFindAll_cons_some hopen hsp
  rw [e4]
  rw [strip_block g hhne hhx]
  rfl

theorem blockName_found (g : GameDesc) (hg : wfGameDesc g = true) :
    searchKwQuoted "name".toList (cmpBlock g) = some g.gname := by
  obtain ⟨hq1, hdy, hog, hor, hq2, hpf, hws, hdg, hdne, hhx, hhne⟩ := wf_parts g hg
  show searchKwQuoted "name".toList ("\n ".toList ++
    ('n' :: 'a' :: 'm' :: 'e' :: ' ' :: '"' :: (g.gname ++ ("\"\n rom ( name \"".toList ++
      (g.rname ++ ("\" size ".toList ++ (g.sizeDigits ++ (" crc ".toList ++ (g.crc ++
        " )\n".toList))))))))) = some g.gname
  rw [nameSearch_skip2]
  apply searchKwQuoted_cons_found
  apply matchKwQuoted_at "name".toList _ g.gname ("\n rom ( name \"".toList ++
    (g.rname ++ ("\" size ".toList ++ (g.sizeDigits ++ (" crc ".toList ++ (g.crc ++
      " )\n".toList))))))
  · rfl
  · rfl
  · exact List.all_eq_true.mp hq1

theorem rdName_found (g : GameDesc) (hq2 : noQuoteNoNL g.rname = true) :
    searchKwQuoted "name".toList (cmpRd g) = some g.rname := by
  show searchKwQuoted "name".toList ('n' :: ('a' :: 'm' :: 'e' :: ' ' :: '"' ::
    (g.rname ++ ("\" size ".toList ++ (g.sizeDigits ++ (" crc ".toList ++ g.crc))))))
    = some g.rname
  apply searchKwQuoted_cons_found
  apply matchKwQuoted_at "name".toList _ g.rname (" size ".toList ++ (g.sizeDigits ++
    (" crc ".toList ++ g.crc)))
  · rfl
  · rfl
  · exact List.all_eq_true.mp hq2

theorem rdSize_found (g : GameDesc) (hws : noWsL g.rname = true)
    (hdg : g.sizeDigits.all Char.isDigit = true) (hdne : g.sizeDigits ≠ []) :
    searchKwRun "size".toList Char.isDigit (cmpRd g) = some g.sizeDigits := by
  show searchKwRun "size".toList Char.isDigit ("name \"".toList ++ (g.rname ++
    ("\" size ".toList ++ (g.sizeDigits ++ (" crc ".toList ++ g.crc)))))
    = some g.sizeDigits
  rw [sizeSearch_skipNameLit]
  have e1 : searchKwRun "size".toList Char.isDigit (g.rname ++ ("\" size ".toList ++
        (g.sizeDigits ++ (" crc ".toList ++ g.crc)))) =
      searchKwRun "size".toList Char.isDigit ('"' :: (' ' :: 's' :: 'i' :: 'z' :: 'e' ::
        ' ' :: (g.sizeDigits ++ (" crc ".toList ++ g.crc)))) :=
    searchKwRun_skip_noWsSeg 's' "ize".toList Char.isDigit g.rname
      (' ' :: 's' :: 'i' :: 'z' :: 'e' :: ' ' :: (g.sizeDigits ++
        (" crc ".toList ++ g.crc)))
      (by decide) hws
  rw [e1]
  rw [sizeSearch_skipQuoteSp]
  apply searchKwRun_cons_found
  apply matchKwRun_at "size".toList Char.isDigit _ g.sizeDigits
    (' ' :: 'c' :: 'r' :: 'c' :: ' ' :: g.crc)
  · rfl
  · rfl
  · intro c hc
    exact ⟨digit_not_ws c (List.all_eq_true.mp hdg c hc), List.all_eq_true.mp hdg c hc⟩
  · exact hdne
  · right
    exact ⟨' ', 'c' :: 'r' :: 'c' :: ' ' :: g.crc, rfl, by decide⟩

theorem rdCrc_found (g : GameDesc) (hws : noWsL g.rname = true)
    (hdg : g.sizeDigits.all Char.isDigit = true)
    (hhx : g.crc.all isHexChar = true) (hhne : g.crc ≠ []) :
    searchKwRun "crc".toList isHexChar (cmpRd g) = some g.crc := by
  show searchKwRun "crc".toList isHexChar ("name \"".toList ++ (g.rname ++
    ("\" size ".toList ++ (g.sizeDigits ++ (" crc ".toList ++ g.crc)))))
    = some g.crc
  rw [crcSearch_skipNameLit]
  have e1 : searchKwRun "crc".toList isHexChar (g.rname ++ ("\" size ".toList ++
        (g.sizeDigits ++ (" crc ".toList ++ g.crc)))) =
      searchKwRun "crc".toList isHexChar ('"' :: (' ' :: 's' :: 'i' :: 'z' :: 'e' :: ' ' ::
        (g.sizeDigits ++ (" crc ".toList ++ g.crc)))) :=
    searchKwRun_skip_noWsSeg 'c' "rc".toList isHexChar g.rname
      (' ' :: 's' :: 'i' :: 'z' :: 'e' :: ' ' :: (g.sizeDigits ++
        (" crc ".toList ++ g.crc)))
      (by decide) hws
  rw [e1]
  rw [crcSearch_skipSizeLit]
  have e15 : searchKwRun "crc".toList isHexChar (g.sizeDigits ++
        (" crc ".toList ++ g.crc)) =
      searchKwRun "crc".toList isHexChar (" crc ".toList ++ g.crc) :=
    searchKwRun_skip_seg 'c' "rc".toList isHexChar Char.isDigit
      (fun c hc => digit_lower_ne (by decide) hc) g.sizeDigits
      (" crc ".toList ++ g.crc) hdg
  rw [e15]
  have e2 : searchKwRun "crc".toList isHexChar (" crc ".toList ++ g.crc) =
      searchKwRun "crc".toList isHexChar ('c' :: 'r' :: 'c' :: ' ' :: g.crc) :=
    crcSearch_skipSp ('c' :: 'r' :: 'c' :: ' ' :: g.crc)
  rw [e2]
  apply searchKwRun_cons_found
  apply matchKwRun_at "crc".toList isHexChar _ g.crc []
  · rfl
  · show (' ' :: g.crc : List Char) = ' ' :: (g.crc ++ [])
    simp
  · intro c hc
    exact ⟨hex_not_ws c (List.all_eq_true.mp hhx c hc), List.all_eq_true.mp hhx c hc⟩
  · exact hhne
  · left
    rfl

theorem cmpBlockRows_proj (ci : CommonInfo) (g : GameDesc) (hg : wfGameDesc g = true) :
    (cmpBlockRows ci (cmpBlock g)).map
        (fun r => (r.game_name, r.rom_name, r.size, r.crc)) =
      [(some (String.mk g.gname), some (String.mk g.rname),
        SizeVal.num (natOfDigits g.sizeDigits), some (String.mk g.crc))] := by
  obtain ⟨hq1, hdy, hog, hor, hq2, hpf, hws, hdg, hdne, hhx, hhne⟩ := wf_parts g hg
  simp only [cmpBlockRows]
  rw [blockName_found g hg, romFindAll_block g hg]
  simp only [List.filterMap_cons, List.filterMap_nil]
  rw [rdName_found g hq2, rdSize_found g hws hdg hdne, rdCrc_found g hws hdg hhx hhne]
  simp

/-- C6: for every legacy-text input made of two well-formed
`game ( … )` blocks with one `rom ( … )` each — game names may contain
balanced parentheses, in particular nested parenthesized groups —
`InMemoryParser._parse_cmp` delimits blocks by parenthesis-depth
counting, so extraction yields exactly 2 records whose game name, rom
name, size and crc are bound to the correct block.  (The streaming
`TurboParser._parse_cmp` violates this on such inputs; see the
counterexample.) -/
theorem C6_block_binding :
    ∀ (ci : CommonInfo) (g1 g2 : GameDesc),
      wfGameDesc g1 = true → wfGameDesc g2 = true →
      (InMemoryParser.parseCmp ci (mkCmpTwo g1 g2)).map
          (fun r => (r.game_name, r.rom_name, r.size, r.crc)) =
        [(some (String.mk g1.gname), some (String.mk g1.rname),
            SizeVal.num (natOfDigits g1.sizeDigits), some (String.mk g1.crc)),
         (some (String.mk g2.gname), some (String.mk g2.rname),
            SizeVal.num (natOfDigits g2.sizeDigits), some (String.mk g2.crc))] := by
  intro ci g1 g2 h1 h2
  unfold InMemoryParser.parseCmp
  rw [gameOpens_two g1 g2 h1 h2]
  rw [show List.filterMap (fun suf => bracketScan suf 1)
        [cmpTail g1 ('\n' :: ("game (".toList ++ cmpTail g2 [])), cmpTail g2 []] =
      [cmpBlock g1, cmpBlock g2] from by
    simp [List.filterMap_cons, bracketScan_tail g1 h1, bracketScan_tail g2 h2]]
  rw [show ([cmpBlock g1, cmpBlock g2] : List (List Char)).flatMap (cmpBlockRows ci) =
      cmpBlockRows ci (cmpBlock g1) ++ cmpBlockRows ci (cmpBlock g2) from by
    simp]
  rw [List.map_append]
  rw [cmpBlockRows_proj ci g1 h1, cmpBlockRows_proj ci g2 h2]
  rfl

/-- C6 counterexample: on a two-block input whose first block holds a
nested multi-line parenthesized group, the streaming line-based CMP
extraction of `TurboParser._parse_cmp` ends the first block at the
nested group's closing-parenthesis line and so emits only 1 record,
while the depth-counting `InMemoryParser._parse_cmp` emits the correct
2 records with correctly bound fields. -/
theorem C6_nested_paren_cex :
    (TurboParser.parseCmp ciDemo cmpNestedText).length = 1 ∧
    (InMemoryParser.parseCmp ciDemo cmpNestedText).map
        (fun r => (r.game_name, r.rom_name, r.size, r.crc)) =
      [(some "G1", some "a.rom", SizeVal.num 1, some "aa"),
       (some "G2", some "b.rom", SizeVal.num 2, some "bb")] := by
  constructor
  · decide
  · decide

/-- Witness for C6 at concrete blocks whose first game name contains a
parenthesized group of its own. -/
theorem C6_block_binding_witness :
    (InMemoryParser.parseCmp ciDemo (mkCmpTwo gdNest1 gdNest2)).map
        (fun r => (r.game_name, r.rom_name, r.size, r.crc)) =
      [(some "Dragonstone (1994)", some "drag.bin", SizeVal.num 42, some "ab12"),
       (some "G2", some "b.rom", SizeVal.num 7, some "ff")] :=
  (C6_block_binding ciDemo gdNest1 gdNest2 (by decide) (by decide)).trans (by decide)
